import Mathlib

/-! # Verification of the Matching / Tiering / Pricing engine

A shallow embedding of `pricing_model_complete.py` (classes
`RobustUOMNormalizer`, `MatchingEngine`, `PricingEngine`) over lists of
records with rational-number prices.  Python `re` patterns are embedded as
dedicated scanning functions with the same leftmost-search semantics on the
concrete patterns the source uses; pandas data frames become lists of
structures, pandas merges become explicit list merges, and pandas `round(0)`
becomes round-half-to-even on `ℚ`.
-/

set_option maxRecDepth 10000

namespace Pricing

/-! ## Character and string utilities (Python `str` operations) -/

/-- Python whitespace test for the characters relevant to `str.strip` / `\s`. -/
def isWsChar (c : Char) : Bool :=
  c = ' ' || c = '\t' || c = '\n' || c = '\r' || c = '\x0c' || c = '\x0b'

/-- Python `\w` (ASCII fragment): alphanumeric or underscore. -/
def isWordChar (c : Char) : Bool := c.isAlphanum || c = '_'

def dropLeadWs : List Char → List Char
  | [] => []
  | c :: cs => if isWsChar c then dropLeadWs cs else c :: cs

/-- Python `str.strip` on a character list. -/
def trimChars (l : List Char) : List Char :=
  ((dropLeadWs ((dropLeadWs l).reverse)).reverse)

/-- Python `str.lower` (ASCII). -/
def lowerChars (l : List Char) : List Char := l.map Char.toLower

/-- `str(x).lower().strip()` — the `clean_str` helper used throughout the source. -/
def cleanStr (s : String) : String := ⟨lowerChars (trimChars s.data)⟩

/-- Does the list start with the given pattern? -/
def startsWithChars : List Char → List Char → Bool
  | _, [] => true
  | [], _ :: _ => false
  | c :: cs, p :: ps => c = p && startsWithChars cs ps

/-- Substring containment (Python `in` on strings). -/
def hasSubChars : List Char → List Char → Bool
  | [], pat => startsWithChars [] pat
  | c :: cs, pat => startsWithChars (c :: cs) pat || hasSubChars cs pat

def containsSub (s pat : String) : Bool := hasSubChars s.data pat.data

/-- Python `str.replace(pat, rep)`: replace all non-overlapping occurrences,
left to right (used for `"i pack" → "1 pack"`).  Structural recursion on a
fuel bounded by the string length (each step consumes ≥ 1 character). -/
def replaceSubAux (pat rep : List Char) : Nat → List Char → List Char
  | _, [] => []
  | 0, l => l
  | fuel + 1, c :: cs =>
    if startsWithChars (c :: cs) pat && !pat.isEmpty then
      rep ++ replaceSubAux pat rep fuel (cs.drop (pat.length - 1))
    else
      c :: replaceSubAux pat rep fuel cs

def replaceSub (s pat rep : String) : String :=
  ⟨replaceSubAux pat.data rep.data s.data.length s.data⟩

/-- Digit run value (the Python `int` of a digit substring). -/
def readNat (ds : List Char) : Nat :=
  ds.foldl (fun a c => 10 * a + (c.toNat - '0'.toNat)) 0

/-- Render a captured digit run verbatim, as an f-string does with
`match.group(1)` (leading zeros preserved). -/
def strOfChars (l : List Char) : String := ⟨l⟩

/-! ## `RobustUOMNormalizer` (`pricing_model_complete.py`, lines 24–82)

Each helper below embeds one `re.search` call of `_parse_uom_string` /
`_extract_count_from_name`, with Python's leftmost-match semantics for the
specific pattern. -/

/-- After a `(`, match `\s*(\d+)\s*(?:pcs|pieces|pc)\s*\)` and return the
captured digit run. -/
def parenCount (l : List Char) : Option (List Char) :=
  match l with
  | '(' :: rest =>
    let r1 := rest.dropWhile isWsChar
    let ds := r1.takeWhile Char.isDigit
    if ds.isEmpty then none
    else
      let r2 := (r1.dropWhile Char.isDigit).dropWhile isWsChar
      let closeAfter : Nat → Bool := fun n =>
        match (r2.drop n).dropWhile isWsChar with
        | ')' :: _ => true
        | _ => false
      if startsWithChars r2 "pcs".data && closeAfter 3 then some ds
      else if startsWithChars r2 "pieces".data && closeAfter 6 then some ds
      else if startsWithChars r2 "pc".data && closeAfter 2 then some ds
      else none
  | _ => none

/-- Rightmost position where `parenCount` succeeds (the greedy `.*` of
`pack.*\(...\)` binds the group at the last matching parenthesis). -/
def lastParenCount : List Char → Option (List Char)
  | [] => none
  | c :: cs =>
    match lastParenCount cs with
    | some d => some d
    | none => parenCount (c :: cs)

/-- Remainder after the first occurrence of (nonempty) `pat`, if any. -/
def afterFirst (pat : List Char) : List Char → Option (List Char)
  | [] => none
  | c :: cs =>
    if startsWithChars (c :: cs) pat then some ((c :: cs).drop pat.length)
    else afterFirst pat cs

/-- `re.search(r'pack.*\(\s*(\d+)\s*(?:pcs|pieces|pc)\s*\)', s)`. -/
def packParenPat (s : List Char) : Option (List Char) :=
  (afterFirst "pack".data s).bind lastParenCount

/-- `re.search(r'^(\d+)\s*pack', s)` (anchored at the start). -/
def leadPackPat (s : List Char) : Option (List Char) :=
  let ds := s.takeWhile Char.isDigit
  if ds.isEmpty then none
  else if startsWithChars ((s.dropWhile Char.isDigit).dropWhile isWsChar) "pack".data then
    some ds
  else none

/-- `re.search(r'(\d+)\s*(?:alt₁|alt₂|…)', s)`: leftmost digit run followed by
optional whitespace and one of the alternatives; returns the digit run. -/
def numThenAlt (alts : List (List Char)) : List Char → Option (List Char)
  | [] => none
  | c :: cs =>
    (if c.isDigit then
      let ds := (c :: cs).takeWhile Char.isDigit
      let r := ((c :: cs).dropWhile Char.isDigit).dropWhile isWsChar
      if alts.any (fun a => startsWithChars r a) then some ds else none
    else none).orElse (fun _ => numThenAlt alts cs)

/-- `s.isdigit()`. -/
def isDigitStr (s : List Char) : Bool := !s.isEmpty && s.all Char.isDigit

/-- `RobustUOMNormalizer._parse_uom_string` (lines 44–66).  The knowledge base
holds the single entry `"2 combo" ↦ "2_combo"` installed in `__init__`. -/
def parseUomString (s0 : String) : String :=
  if s0 = "2 combo" then "2_combo"
  else
    let s := replaceSub s0 "i pack" "1 pack"
    match packParenPat s.data with
    | some ds => strOfChars ds ++ "_pieces"
    | none =>
      match leadPackPat s.data with
      | some ds => strOfChars ds ++ "_pieces"
      | none =>
        match numThenAlt ["pieces".data, "pcs".data, "piece".data] s.data with
        | some ds => strOfChars ds ++ "_pieces"
        | none =>
          match numThenAlt ["g".data] s.data with
          | some ds => strOfChars ds ++ "_g"
          | none =>
            match numThenAlt ["ml".data] s.data with
            | some ds => strOfChars ds ++ "_ml"
            | none => if isDigitStr s.data then s ++ "_pieces" else s

/-- The `{0,3}` intervening-words part of `r'(\d+)\s+(?:(?:\w+\s+){0,3})eggs'`:
after at most `fuel` hops of `\w+\s+`, does `eggs` start here? -/
def eggsHop : Nat → List Char → Bool
  | 0, r => startsWithChars r "eggs".data
  | fuel + 1, r =>
    startsWithChars r "eggs".data ||
      (let w := r.takeWhile isWordChar
       let rest := r.dropWhile isWordChar
       let ws := rest.takeWhile isWsChar
       !w.isEmpty && !ws.isEmpty && eggsHop fuel (rest.dropWhile isWsChar))

/-- `re.search(r'(\d+)\s+(?:(?:\w+\s+){0,3})eggs', s)`: leftmost digit run with
at least one whitespace and up to three intervening words before `eggs`. -/
def eggsAfterNum : List Char → Option Nat
  | [] => none
  | c :: cs =>
    (if c.isDigit then
      let ds := (c :: cs).takeWhile Char.isDigit
      let r0 := (c :: cs).dropWhile Char.isDigit
      if !(r0.takeWhile isWsChar).isEmpty && eggsHop 3 (r0.dropWhile isWsChar) then
        some (readNat ds)
      else none
    else none).orElse (fun _ => eggsAfterNum cs)

/-- `re.search(r'eggs\s+(\d+)$', s)`: trailing digit run preceded by
whitespace preceded by `eggs`. -/
def eggsTrailing (s : List Char) : Option Nat :=
  let rev := s.reverse
  let dsRev := rev.takeWhile Char.isDigit
  if dsRev.isEmpty then none
  else
    let r1 := rev.dropWhile Char.isDigit
    if (r1.takeWhile isWsChar).isEmpty then none
    else if startsWithChars (r1.dropWhile isWsChar) "sgge".data then
      some (readNat dsRev.reverse)
    else none

/-- `RobustUOMNormalizer._extract_count_from_name` (lines 68–82). -/
def extractCountFromName (text : String) : Option Nat :=
  let s := lowerChars text.data
  match numThenAlt ["pc".data, "pcs".data, "piece".data, "pieces".data] s with
  | some ds => some (readNat ds)
  | none =>
    match eggsAfterNum s with
    | some n => some n
    | none => eggsTrailing s

/-- The `normalized_uom in ['', 'nan', 'unknown']` missing-marker test
(line 35). -/
def isMissingUom (s : String) : Bool := s = "" || s = "nan" || s = "unknown"

/-- The weight/volume test of line 34. -/
def isWeightOrVol (s : String) : Bool :=
  containsSub s "_g" || containsSub s "_ml" || containsSub s "_kg" || containsSub s "_l"

/-- `RobustUOMNormalizer.normalize` (lines 30–42).  A missing `item_name`
(`None` in Python, falsy like the empty string) is modelled as `""`. -/
def normalize (uomVal itemName : String) : String :=
  let sUom := cleanStr uomVal
  let n := parseUomString sUom
  if (isWeightOrVol n || isMissingUom n) && !(itemName == "") then
    match extractCountFromName itemName with
    | some c => toString c ++ "_pieces"
    | none => n
  else n

/-! ## Numeric utilities -/

/-- Kernel-computable floor of a rational (agrees with `⌊·⌋`, see
`floorZ_eq`). -/
def floorZ (x : ℚ) : ℤ := x.num / (x.den : ℤ)

theorem floorZ_eq (x : ℚ) : floorZ x = ⌊x⌋ := Rat.floor_def.symm

/-- pandas/numpy `round(0)`: round half to even (banker's rounding), on an
ideal rational (the source rounds float64 values). -/
def roundHalfEven (x : ℚ) : ℚ :=
  let f : ℤ := floorZ x
  if x - f < 1/2 then f
  else if x - f > 1/2 then f + 1
  else if f % 2 = 0 then f else f + 1

/-- `np.floor` on a rational. -/
def floorQ (x : ℚ) : ℚ := (floorZ x : ℤ)

/-- First digit run of a string (`'.str.extract(r"(\d+)")'`). -/
def firstDigitRun : List Char → Option (List Char)
  | [] => none
  | c :: cs => if c.isDigit then some ((c :: cs).takeWhile Char.isDigit) else firstDigitRun cs

/-- `.str.extract(r'(\d+)').astype(float).fillna(1.0)` — the `pack_size`
computation (line 193) and the tiering `pack_n` (line 479). -/
def extractPackSize (s : String) : ℚ :=
  match firstDigitRun s.data with
  | some ds => (readNat ds : ℚ)
  | none => 1

/-! ## List utilities: stable sort, first-occurrence dedup, left merge

`DataFrame.sort_values` / `drop_duplicates` / `pd.merge(…, how='left')` on
lists of rows.  The embedding uses a stable sort where pandas' default
quicksort leaves the order of tied rows unspecified; no claim below depends
on a tie between distinct rows. -/

def insertSorted (lt : α → α → Bool) (x : α) : List α → List α
  | [] => [x]
  | y :: ys => if lt y x then y :: insertSorted lt x ys else x :: y :: ys

/-- Stable insertion sort: `lt` is the strict "sort key less" test. -/
def sortByB (lt : α → α → Bool) : List α → List α
  | [] => []
  | x :: xs => insertSorted lt x (sortByB lt xs)

/-- `drop_duplicates(subset=key)`: keep the first row for each key (keys
already seen accumulate in `seen`). -/
def dedupByKeyAux {κ : Type _} [DecidableEq κ] (k : α → κ) (seen : List κ) :
    List α → List α
  | [] => []
  | x :: xs =>
    if seen.any fun y => decide (y = k x) then dedupByKeyAux k seen xs
    else x :: dedupByKeyAux k (k x :: seen) xs

def dedupByKey {κ : Type _} [DecidableEq κ] (k : α → κ) (l : List α) : List α :=
  dedupByKeyAux k [] l

/-- `pd.merge(ls, rs, how='left')` on a boolean join predicate: every left row
joins each matching right row, or survives alone with null right fields. -/
def leftMergeWith (key : α → β → Bool) (emb : α → Option β → γ)
    (ls : List α) (rs : List β) : List γ :=
  ls.flatMap fun l =>
    match rs.filter (key l) with
    | [] => [emb l none]
    | ms => ms.map fun m => emb l (some m)

/-- `groupby` key enumeration (first-occurrence order; pandas sorts group
keys, but no result below depends on the order of distinct groups). -/
def groupKeys {κ : Type _} [DecidableEq κ] (k : α → κ) (l : List α) : List κ :=
  dedupByKey id (l.map k)

/-- Python `str.title()` (used in the T2-fallback rationale). -/
def titleChars : Bool → List Char → List Char
  | _, [] => []
  | prevAlpha, c :: cs =>
    (if c.isAlpha then (if prevAlpha then c.toLower else c.toUpper) else c)
      :: titleChars c.isAlpha cs

def titleStr (s : String) : String := ⟨titleChars false s.data⟩

def lowerStr (s : String) : String := ⟨lowerChars s.data⟩

/-! ## Data model

Rows of the input tables with the canonical columns the orchestrator
`run_complete_pricing_model` loads (string keys, numeric prices).  Numeric
cells are rationals (`to_numeric` results); the `BDPO` and `Hardcoded_SDPO`
policy cells are modelled after Python's lexing of the cell text. -/

/-- The `BDPO` cell of a product row as `get_bdpo` (lines 531–540) lexes it:
a string containing `%` is a percentage of MRP, otherwise `float(...)` parses
a plain amount; empty/`'nan'` is 0 and an unparseable string hits the bare
`except` (also 0). -/
inductive BdpoCell where
  | empty
  | pct (v : ℚ)
  | amt (v : ℚ)
  | bad
  deriving DecidableEq, Repr, Inhabited

/-- Product (IM) table row: `ITEM_CODE, CITY, ITEM_NAME, uom, BRAND, MRP`
and the optional `BDPO` policy cell. The canonical product table has no
`MOP` column (cf. lines 547, 603: `mop_col` falls back to `'cogs'`). -/
structure ImRow where
  item_code : ℤ
  city : String
  item_name : String
  uom : String
  brand : String
  mrp : ℚ
  bdpo : BdpoCell
  deriving DecidableEq, Repr

/-- Competitor table row: `city, brand_name, product_name, uom,
selling_price, mrp, source`. -/
structure CompRow where
  city : String
  brand_name : String
  product_name : String
  uom : String
  selling_price : ℚ
  mrp : ℚ
  source : String
  deriving DecidableEq, Repr

/-- COGS table row (`ITEM_CODE, CITY, COGS`). -/
structure CogsRow where
  item_code : ℤ
  city : String
  cogs : ℚ
  deriving DecidableEq, Repr

/-- City/brand exclusion row (`CITY, BRAND`). -/
structure ExclRow where
  city : String
  brand : String
  deriving DecidableEq, Repr

/-- Stock table row (`CITY, ITEM_CODE, STOCK_STATUS`). -/
structure StockRow where
  city : String
  item_code : ℤ
  status : String
  deriving DecidableEq, Repr

/-- Revenue-weight table row (`ITEM_CODE, GMV Contribution`). -/
structure GmvRow where
  item_code : ℤ
  contribution : ℚ
  deriving DecidableEq, Repr

/-- Brand-discount policy row (`Brand, Hardcoded_SDPO`); the cell is the
numeric value of the string with any `%` removed (line 462–464), `none` for a
null cell. -/
structure SdpoRow where
  brand : String
  hardcoded_sdpo : Option ℚ
  deriving DecidableEq, Repr

/-! ## Data preparation (`MatchingEngine._normalize_im/_normalize_comp/_prep_data`,
lines 131–266) -/

def t1Cities : List String :=
  ["bangalore", "chennai", "delhi", "faridabad", "gurgaon",
   "hyderabad", "kolkata", "mumbai", "noida", "pune"]

def cityTier (cityClean : String) : String :=
  if t1Cities.contains cityClean then "T1" else "T2"

def cityStateMap : List (String × String) :=
  [("bangalore", "karnataka"), ("mysore", "karnataka"), ("mangalore", "karnataka"),
   ("chennai", "tamil nadu"), ("coimbatore", "tamil nadu"), ("madurai", "tamil nadu"),
   ("hyderabad", "telangana"), ("warangal", "telangana"), ("vizag", "andhra pradesh"),
   ("mumbai", "maharashtra"), ("pune", "maharashtra"), ("nagpur", "maharashtra"),
   ("delhi", "delhi"), ("noida", "uttar pradesh"), ("gurgaon", "haryana"),
   ("kolkata", "west bengal"), ("ahmedabad", "gujarat"), ("jaipur", "rajasthan")]

def stateOf (cityClean : String) : String :=
  ((cityStateMap.find? fun p => p.1 == cityClean).map Prod.snd).getD "unknown"

/-- `get_egg_type` (lines 219–224): keyword classification of the item name
(`str(name).lower()`, no strip). -/
def getEggType (name : String) : String :=
  let s := lowerStr name
  if containsSub s "duck" then "Duck"
  else if containsSub s "quail" then "Quail"
  else if containsSub s "brown" || containsSub s "desi" || containsSub s "country" then "Brown"
  else "White"

/-- `re.sub(r'\bw\b', '', s)`: erase every standalone occurrence of the word
`w` (maximal word-character runs equal to `w`; `\b` requires the run to be
delimited).  Structural recursion on a fuel bounded by the string length. -/
def removeWordAux (w : List Char) : Nat → List Char → List Char
  | _, [] => []
  | 0, l => l
  | fuel + 1, c :: cs =>
    if isWordChar c then
      let run := (c :: cs).takeWhile isWordChar
      let rest := (c :: cs).dropWhile isWordChar
      (if run = w then [] else run) ++ removeWordAux w fuel rest
    else c :: removeWordAux w fuel cs

def removeWord (w s : String) : String :=
  ⟨removeWordAux w.data s.data.length s.data⟩

/-- `get_brand_key` (lines 230–234): clean, strip the generic brand suffix
words, strip. -/
def getBrandKey (s : String) : String :=
  let s1 := cleanStr s
  let s2 := removeWord "poultry" (removeWord "foods" (removeWord "farm"
    (removeWord "farms" (removeWord "egg" (removeWord "eggs" s1)))))
  ⟨trimChars s2.data⟩

/-- The OPP (private-label) item-code list (lines 243–249). -/
def oppCodes : List ℤ :=
  [833000, 11962, 548512, 56620, 35213, 11174, 11173, 51950,
   11966, 428785, 12341, 12490, 78360, 691733, 744712, 16886,
   13422, 604104, 24379, 14043, 716088, 709061, 697269, 630903,
   558087, 124058, 478620, 890035, 438327, 141942, 11897, 11961,
   370525, 548855, 839302, 303428, 498900, 923763, 995731, 445831, 776284, 6881, 193321]

/-- IM row with the derived preparation columns (`Normalized_UOM, city_clean,
uom_clean, pack_size, city_tier, state, mrp_int, egg_type, brand_key, is_opp,
COGS_LATEST`). -/
structure PrepRow where
  item_code : ℤ
  city : String
  item_name : String
  uom : String
  brand : String
  mrp : ℚ
  bdpo : BdpoCell
  normalized_uom : String
  city_clean : String
  uom_clean : String
  pack_size : ℚ
  city_tier : String
  state : String
  mrp_int : ℚ
  egg_type : String
  brand_key : String
  is_opp : Bool
  cogs_latest : ℚ
  deriving DecidableEq, Repr, Inhabited

/-- Per-row part of `_normalize_im` + `_prep_data` for the IM table
(everything except the COGS merge, which follows as a left merge). -/
def basePrepIm (r : ImRow) : PrepRow :=
  let nuom := normalize r.uom r.item_name
  let cclean := cleanStr r.city
  let uclean := cleanStr nuom
  { item_code := r.item_code, city := r.city, item_name := r.item_name, uom := r.uom,
    brand := r.brand, mrp := r.mrp, bdpo := r.bdpo,
    normalized_uom := nuom, city_clean := cclean, uom_clean := uclean,
    pack_size := extractPackSize uclean,
    city_tier := cityTier cclean, state := stateOf cclean,
    mrp_int := roundHalfEven r.mrp,
    egg_type := getEggType r.item_name,
    brand_key := getBrandKey r.brand,
    is_opp := oppCodes.contains r.item_code,
    cogs_latest := 0 }

/-- `_prep_data`'s COGS merge (lines 254–264): left merge on
`(ITEM_CODE, city_clean)`, then `fillna(0)`. -/
def prepIm (im : List ImRow) (cogs : List CogsRow) : List PrepRow :=
  leftMergeWith
    (fun r c => c.item_code == r.item_code && cleanStr c.city == r.city_clean)
    (fun r mc => { r with cogs_latest := (mc.map (·.cogs)).getD 0 })
    (im.map basePrepIm) cogs

/-- Competitor row with derived preparation columns. -/
structure CompPRow where
  city : String
  brand_name : String
  product_name : String
  uom : String
  selling_price : ℚ
  mrp : ℚ
  source : String
  normalized_uom : String
  city_clean : String
  uom_clean : String
  pack_size : ℚ
  price_per_piece : Option ℚ
  mrp_int : ℚ
  egg_type : String
  brand_clean : String
  brand_key : String
  deriving DecidableEq, Repr

/-- `_normalize_comp` + `_prep_data` for a competitor row.  A zero
`pack_size` makes the float division of line 212 non-finite, which the OPP
pool test `price_per_piece <= 10` then rejects for non-negative prices; with
`pack_size ≥ 1` guaranteed by `fillna(1.0)` only a `0`-count pack token can
trigger it, modelled as `none` (excluded from the pool). -/
def prepComp (r : CompRow) : CompPRow :=
  let nuom := normalize r.uom r.product_name
  let cclean := cleanStr r.city
  let uclean := cleanStr nuom
  let packSize := extractPackSize uclean
  { city := r.city, brand_name := r.brand_name, product_name := r.product_name,
    uom := r.uom, selling_price := r.selling_price, mrp := r.mrp, source := r.source,
    normalized_uom := nuom, city_clean := cclean, uom_clean := uclean,
    pack_size := packSize,
    price_per_piece := if packSize = 0 then none else some (r.selling_price / packSize),
    mrp_int := roundHalfEven r.mrp,
    egg_type := getEggType r.product_name,
    brand_clean := cleanStr r.brand_name,
    brand_key := getBrandKey (cleanStr r.brand_name) }

/-! ## Matching engine (`MatchingEngine`, lines 89–376) -/

/-- `_apply_exclusions` (lines 157–175): drop competitor rows whose
`city_clean + "_" + brand_clean` key appears in the exclusion table.
(`run_matching` skips the call for an empty exclusion table; filtering by an
empty key list is the identity, so the guard is behaviourally absorbed.) -/
def applyExclusions (comp : List CompPRow) (excl : List ExclRow) : List CompPRow :=
  let exclKeys := excl.map fun e => cleanStr e.city ++ "_" ++ cleanStr e.brand
  comp.filter fun c => !(exclKeys.contains (cleanStr c.city ++ "_" ++ cleanStr c.brand_name))

/-- One matching-engine result row (`CITY, ITEM_CODE, Min_Comp_Price,
Min_Comp_Brand, Min_Comp_Source, Match_Logic_Comment`); an absent price is
`none` (NaN/None in the frame), absent brand/source are `""`. -/
structure MatchRow where
  city : String
  item_code : ℤ
  min_comp_price : Option ℚ
  min_comp_brand : String
  min_comp_source : String
  comment : String
  deriving DecidableEq, Repr

/-- The 5%-spacing filter of `_match_opp` (lines 285–291): starting from
`last_price = 0`, keep a row iff its price is ≥ `last * 1.05`, updating
`last` to each kept price. -/
def spacedAux (price : α → ℚ) : ℚ → List α → List α
  | _, [] => []
  | last, c :: cs =>
    if last * (105/100) ≤ price c then c :: spacedAux price (price c) cs
    else spacedAux price last cs

def spaced (price : α → ℚ) (l : List α) : List α := spacedAux price 0 l

def oppGroupKey (r : PrepRow) : String × String × String :=
  (r.city_clean, r.uom_clean, r.egg_type)

/-- Rank alignment inside one OPP group (lines 293–309): the `i`-th
cheapest product takes the `i`-th spaced competitor row, or a no-match
rationale when the rank exceeds availability. -/
def matchOppGroup (subIm : List PrepRow) (validComp : List CompPRow) : List MatchRow :=
  subIm.enum.map fun (i, row) =>
    match validComp.get? i with
    | some m =>
      { city := row.city, item_code := row.item_code,
        min_comp_price := some m.selling_price,
        min_comp_brand := m.brand_name, min_comp_source := m.source,
        comment := "OPP Match: Rank " ++ toString (i + 1) }
    | none =>
      { city := row.city, item_code := row.item_code, min_comp_price := none,
        min_comp_brand := "", min_comp_source := "",
        comment := "OPP condition not met: Rank " ++ toString (i + 1) ++
          " > Avail (" ++ toString validComp.length ++ ")" }

/-- `_match_opp` (lines 268–311): group OPP products by
`(city_clean, uom_clean, egg_type)`, sort products by COGS and the pool
(unit price ≤ 10) by price, apply the spacing filter, rank-align. -/
def matchOpp (im : List PrepRow) (comp : List CompPRow) : List MatchRow :=
  let imOpp := im.filter (·.is_opp)
  let pool := comp.filter fun c =>
    match c.price_per_piece with
    | some p => decide (p ≤ 10)
    | none => false
  (groupKeys oppGroupKey imOpp).flatMap fun k =>
    let subIm := sortByB (fun a b => decide (a.cogs_latest < b.cogs_latest))
      (imOpp.filter fun r => decide (oppGroupKey r = k))
    let subComp := sortByB (fun a b => decide (a.selling_price < b.selling_price))
      (pool.filter fun c => c.city_clean == k.1 && c.uom_clean == k.2.1 && c.egg_type == k.2.2)
    matchOppGroup subIm (spaced (·.selling_price) subComp)

/-- One candidate pairing of `_match_non_opp`'s `comb` frame (a row of
`m1`/`m2` restricted to the columns the hit selection uses). -/
structure CandRow where
  city : String
  item_code : ℤ
  prio : ℕ
  selling_price : ℚ
  brand_name : String
  source : String
  comment : String
  deriving DecidableEq, Repr

/-- `sort_values(['CITY', 'ITEM_CODE', 'prio', 'selling_price'])` strict
lexicographic comparison. -/
def candLt (a b : CandRow) : Bool :=
  if a.city ≠ b.city then decide (a.city < b.city)
  else if a.item_code ≠ b.item_code then decide (a.item_code < b.item_code)
  else if a.prio ≠ b.prio then decide (a.prio < b.prio)
  else decide (a.selling_price < b.selling_price)

/-- The `m1` inner merge (line 320): exact match on
`(city_clean, brand_key, uom_clean, mrp_int)`, priority 1. -/
def m1Cands (imNon : List PrepRow) (comp : List CompPRow) : List CandRow :=
  imNon.flatMap fun r =>
    (comp.filter fun c =>
      c.city_clean == r.city_clean && c.brand_key == r.brand_key &&
      c.uom_clean == r.uom_clean && c.mrp_int == r.mrp_int).map fun c =>
      { city := r.city, item_code := r.item_code, prio := 1,
        selling_price := c.selling_price, brand_name := c.brand_name,
        source := c.source, comment := "Exact UOM String" }

/-- The `m2` inner merge (line 325): match on
`(city_clean, brand_key, pack_size, mrp_int)`, priority 2. -/
def m2Cands (imNon : List PrepRow) (comp : List CompPRow) : List CandRow :=
  imNon.flatMap fun r =>
    (comp.filter fun c =>
      c.city_clean == r.city_clean && c.brand_key == r.brand_key &&
      c.pack_size == r.pack_size && c.mrp_int == r.mrp_int).map fun c =>
      { city := r.city, item_code := r.item_code, prio := 2,
        selling_price := c.selling_price, brand_name := c.brand_name,
        source := c.source, comment := "Numeric Pack Size" }

/-- `hits` (line 331): concatenate, sort by (CITY, ITEM_CODE, prio, price),
keep the first row per `(CITY, ITEM_CODE)`. -/
def nonOppHits (imNon : List PrepRow) (comp : List CompPRow) : List CandRow :=
  dedupByKey (fun c => (c.city, c.item_code))
    (sortByB candLt (m1Cands imNon comp ++ m2Cands imNon comp))

/-- `_match_non_opp` (lines 313–346). -/
def matchNonOpp (im : List PrepRow) (comp : List CompPRow) : List MatchRow :=
  let imNon := im.filter fun r => !r.is_opp
  let hits := nonOppHits imNon comp
  leftMergeWith
    (fun (r : PrepRow) (h : CandRow) => h.city == r.city && h.item_code == r.item_code)
    (fun r mh =>
      match mh with
      | some h =>
        { city := r.city, item_code := r.item_code,
          min_comp_price := some h.selling_price,
          min_comp_brand := h.brand_name, min_comp_source := h.source,
          comment := "Non-OPP Match: " ++ h.comment }
      | none =>
        { city := r.city, item_code := r.item_code, min_comp_price := none,
          min_comp_brand := "", min_comp_source := "",
          comment := "Non OPP condition not met" })
    imNon hits

/-- A match row decorated with the `meta` columns (`city_tier, state`) of
`_apply_t2_fallback`'s working frame. -/
structure WorkRow where
  city : String
  item_code : ℤ
  min_comp_price : Option ℚ
  min_comp_brand : String
  min_comp_source : String
  comment : String
  city_tier : String
  state : String
  deriving DecidableEq, Repr

/-- `meta` (line 354): the distinct `(ITEM_CODE, CITY, city_tier, state)`
tuples of the prepared IM frame, first occurrence kept. -/
def metaOf (im : List PrepRow) : List (ℤ × String × String × String) :=
  dedupByKey id (im.map fun r => (r.item_code, r.city, r.city_tier, r.state))

def workRowOf (m : MatchRow) (mt : Option (ℤ × String × String × String)) : WorkRow :=
  { city := m.city, item_code := m.item_code, min_comp_price := m.min_comp_price,
    min_comp_brand := m.min_comp_brand, min_comp_source := m.min_comp_source,
    comment := m.comment,
    city_tier := (mt.map (·.2.2.1)).getD "", state := (mt.map (·.2.2.2)).getD "" }

def matchRowOf (w : WorkRow) : MatchRow :=
  { city := w.city, item_code := w.item_code, min_comp_price := w.min_comp_price,
    min_comp_brand := w.min_comp_brand, min_comp_source := w.min_comp_source,
    comment := w.comment }

/-- The decorated working frame of `_apply_t2_fallback` (line 355): the
concatenated match rows left-merged with the `meta` tuples. -/
def t2Work (opp nonOpp : List MatchRow) (im : List PrepRow) : List WorkRow :=
  leftMergeWith
    (fun (m : MatchRow) (t : ℤ × String × String × String) =>
      t.1 == m.item_code && t.2.1 == m.city)
    workRowOf (opp ++ nonOpp) (metaOf im)

/-- The `t1_lookup` table (lines 358–361): T1 rows with a positive price,
cheapest first, one per `(state, ITEM_CODE)`. -/
def t2Lookup (work : List WorkRow) : List WorkRow :=
  dedupByKey (fun w => (w.state, w.item_code))
    (sortByB (fun a b => decide (a.min_comp_price.getD 0 < b.min_comp_price.getD 0))
      (work.filter fun w =>
        w.city_tier == "T1" &&
          (match w.min_comp_price with | some p => decide (0 < p) | none => false)))

/-- `apply_fallback` (lines 363–372), per row. -/
def t2FallbackRow (t1s : List WorkRow) (w : WorkRow) : MatchRow :=
  if w.city_tier == "T2" &&
      (match w.min_comp_price with | some p => decide (p ≤ 0) | none => true) then
    match t1s.find? fun t => t.state == w.state && t.item_code == w.item_code with
    | some d =>
      { city := w.city, item_code := w.item_code,
        min_comp_price := d.min_comp_price,
        min_comp_brand := d.min_comp_brand, min_comp_source := d.min_comp_source,
        comment := "Fallback: Used " ++ titleStr w.state ++ " T1" }
    | none => matchRowOf w
  else matchRowOf w

/-- `_apply_t2_fallback` (lines 348–376): decorate the concatenated match
rows with tier/state, build the T1 lookup, and rewrite unmatched T2 rows. -/
def applyT2Fallback (opp nonOpp : List MatchRow) (im : List PrepRow) : List MatchRow :=
  let work := t2Work opp nonOpp im
  work.map (t2FallbackRow (t2Lookup work))

/-- `run_matching` output row: the prepared IM row with the merged match
columns, `Min_Comp_Price` already `fillna(0)`-filled (line 126). -/
structure MatchedRow extends PrepRow where
  min_comp_price : ℚ
  min_comp_brand : String
  min_comp_source : String
  match_comment : String
  deriving DecidableEq, Repr, Inhabited

/-- `MatchingEngine.run_matching` (lines 95–129).  The unused `necc_df`
argument is omitted.  Normalization is fused into the per-row preparation
(the exclusion step between them reads only raw city/brand fields). -/
def runMatching (im : List ImRow) (comp : List CompRow) (cogs : List CogsRow)
    (excl : List ExclRow) : List MatchedRow :=
  let compP := applyExclusions (comp.map prepComp) excl
  let imP := prepIm im cogs
  let opp := matchOpp imP compP
  let non := matchNonOpp imP compP
  let fin := applyT2Fallback opp non imP
  leftMergeWith
    (fun (r : PrepRow) (m : MatchRow) => m.city == r.city && m.item_code == r.item_code)
    (fun r mm =>
      { toPrepRow := r,
        min_comp_price := match mm with | some m => m.min_comp_price.getD 0 | none => 0,
        min_comp_brand := (mm.map (·.min_comp_brand)).getD "",
        min_comp_source := (mm.map (·.min_comp_source)).getD "",
        match_comment := (mm.map (·.comment)).getD "" })
    imP fin

/-! ## Pricing engine (`PricingEngine`, lines 383–626) -/

/-- `clean_key` of `_merge_stock` (lines 428–432):
`str(city).lower().strip() + "_" + str(int(float(item)))`. -/
def stockKey (city : String) (item : ℤ) : String :=
  cleanStr city ++ "_" ++ toString item

structure StockedRow extends MatchedRow where
  stock_status : String
  deriving DecidableEq, Repr

/-- `_merge_stock` (lines 423–441): empty table ⇒ `'NA'`; otherwise left
merge on the composite key against the key-deduplicated stock table,
`fillna('NA')`. -/
def mergeStock (df : List MatchedRow) (stock : List StockRow) : List StockedRow :=
  if stock.isEmpty then
    df.map fun r => { toMatchedRow := r, stock_status := "NA" }
  else
    leftMergeWith
      (fun (r : MatchedRow) (s : StockRow) =>
        stockKey s.city s.item_code == stockKey r.city r.item_code)
      (fun r ms => { toMatchedRow := r, stock_status := (ms.map (·.status)).getD "NA" })
      df (dedupByKey (fun s => stockKey s.city s.item_code) stock)

structure WeightedRow extends StockedRow where
  gmv_contribution : ℚ
  deriving DecidableEq, Repr

/-- `_merge_gmv` (lines 443–453): empty table ⇒ 0; otherwise left merge on
`ITEM_CODE`, `fillna(0)`. -/
def mergeGmv (df : List StockedRow) (gmv : List GmvRow) : List WeightedRow :=
  if gmv.isEmpty then
    df.map fun r => { toStockedRow := r, gmv_contribution := 0 }
  else
    leftMergeWith
      (fun (r : StockedRow) (g : GmvRow) => g.item_code == r.item_code)
      (fun r mg => { toStockedRow := r, gmv_contribution := (mg.map (·.contribution)).getD 0 })
      df gmv

structure SdpoMergedRow extends WeightedRow where
  fixed_sdpo_pct : ℚ
  deriving DecidableEq, Repr

/-- `_merge_brand_sdpo` (lines 455–471): empty table ⇒ 0; otherwise compute
`Fixed_SDPO_Pct` (`value/100`, null ⇒ 0), left merge on the cleaned brand,
`fillna(0)`. -/
def mergeSdpo (df : List WeightedRow) (sdpo : List SdpoRow) : List SdpoMergedRow :=
  if sdpo.isEmpty then
    df.map fun r => { toWeightedRow := r, fixed_sdpo_pct := 0 }
  else
    leftMergeWith
      (fun (r : WeightedRow) (s : SdpoRow) => cleanStr s.brand == cleanStr r.brand)
      (fun r ms =>
        { toWeightedRow := r,
          fixed_sdpo_pct := (ms.map fun s => (s.hardcoded_sdpo.getD 0) / 100).getD 0 })
      df sdpo

/-- Pack-size category (lines 479–482), from `Normalized_UOM`. -/
def packCategory (nuom : String) : String :=
  let n := extractPackSize nuom
  if n = 30 ∨ n = 24 ∨ n = 25 ∨ n = 20 then "Large"
  else if n = 10 ∨ n = 12 ∨ n = 15 ∨ n = 18 then "Mid"
  else if n = 6 ∨ n = 4 then "Small"
  else "Other"

structure TieredRow extends SdpoMergedRow where
  pack_category : String
  kvi_tier : String
  deriving DecidableEq, Repr

/-- `_calculate_kvi_tiers` (lines 473–496): per `(CITY, pack_category)`
group, the running `GMV Contribution` share in the frame's row order
(`groupby(...).cumsum()` / `transform('sum')`, zero total replaced by 1);
`Tier 1` while ≤ 0.80, `Tier 2` while ≤ 0.95, else `Tier 3`; rows with zero
contribution forced to `Tier 3`. -/
def calculateKviTiers (df : List SdpoMergedRow) : List TieredRow :=
  df.enum.map fun (i, r) =>
    let cat := packCategory r.normalized_uom
    let grp := fun (s : SdpoMergedRow) =>
      s.city == r.city && packCategory s.normalized_uom == cat
    let cum := (((df.take (i + 1)).filter grp).map (·.gmv_contribution)).sum
    let tot := ((df.filter grp).map (·.gmv_contribution)).sum
    let pareto := cum / (if tot = 0 then 1 else tot)
    let tier :=
      if r.gmv_contribution = 0 then "Tier 3"
      else if pareto ≤ 80/100 then "Tier 1"
      else if pareto ≤ 95/100 then "Tier 2"
      else "Tier 3"
    { toSdpoMergedRow := r, pack_category := cat, kvi_tier := tier }

structure TargetRow extends TieredRow where
  target_nm : ℚ
  deriving DecidableEq, Repr

/-- `get_target` of `_calculate_target_margins` (lines 506–521). -/
def getTarget (r : TieredRow) : ℚ :=
  let t : ℚ :=
    if r.pack_category = "Small" ∨ r.pack_category = "Mid" then
      if r.kvi_tier = "Tier 1" then (if r.is_opp then 10/100 else 17/100)
      else (if r.is_opp then 11/100 else 20/100)
    else if r.pack_category = "Large" then
      if r.kvi_tier = "Tier 1" then (if r.is_opp then 5/100 else 15/100)
      else (if r.is_opp then 6/100 else 18/100)
    else 15/100
  let t := if r.city_tier = "T2" then t - 5/100 else t
  max t 0

/-- `_calculate_target_margins` (lines 498–524): a caller override (a
percentage) replaces the computed target uniformly. -/
def calculateTargetMargins (df : List TieredRow) (override : Option ℚ) : List TargetRow :=
  df.map fun r =>
    { toTieredRow := r,
      target_nm := match override with | some o => o / 100 | none => getTarget r }

/-- `get_bdpo` of `_calculate_prices` (lines 531–542): percentage cells are
`mrp × v / 100`, amount cells are used as-is; a positive value is capped at
`mrp × 0.9`, otherwise 0. -/
def bdpoVal (mrp : ℚ) (cell : BdpoCell) : ℚ :=
  let val : ℚ :=
    match cell with
    | .pct v => mrp * v / 100
    | .amt v => v
    | .empty => 0
    | .bad => 0
  if 0 < val then min val (mrp * (9/10)) else 0

structure CalcRow extends TargetRow where
  bdpo_val : ℚ
  cogs : ℚ
  price_min_margin : ℚ
  price_comp : ℚ
  /-- The `model_price` value after the standard-match and KVI-undercut
  overwrites (lines 575–580) but before the brand-rule overwrite of
  line 583 — the cascade state the brand rule overrides. -/
  pre_brand_price : ℚ
  model_price : ℚ
  stock_action : String
  deriving DecidableEq, Repr

/-- `T2-city AND stock-insufficient` (line 561). -/
def isInsufficient (cityTierV stockStatus : String) : Bool :=
  cityTierV == "T2" && lowerStr stockStatus == "insufficient"

/-- `bdpo_val` of a row (line 542). -/
def bdpoValOf (r : TargetRow) : ℚ := bdpoVal r.mrp r.bdpo

/-- `price_min_margin` (line 551): `target_nm × MRP + cogs − bdpo_val`. -/
def priceMinMarginOf (r : TargetRow) : ℚ :=
  r.target_nm * r.mrp + r.cogs_latest - bdpoValOf r

/-- `price_comp` (line 552): the matched price when positive, else the
margin-implied price. -/
def priceCompOf (r : TargetRow) : ℚ :=
  if 0 < r.min_comp_price then r.min_comp_price else priceMinMarginOf r

/-- `nm_comp` (line 558): margin realized at `price_comp`, with a zero MRP
replaced by 1 in the denominator. -/
def nmCompOf (r : TargetRow) : ℚ :=
  (priceCompOf r - r.cogs_latest + bdpoValOf r) / (if r.mrp = 0 then 1 else r.mrp)

/-- `should_undercut` (line 579): KVI Tier 1, a competitor match, margin
strictly above target, and not (T2 and stock-insufficient). -/
def shouldUndercutOf (r : TargetRow) : Bool :=
  (r.kvi_tier == "Tier 1") && decide (0 < r.min_comp_price) &&
    decide (r.target_nm < nmCompOf r) && !(isInsufficient r.city_tier r.stock_status)

/-- `standard_match` (line 575). -/
def standardMatchOf (r : TargetRow) : Bool :=
  decide (r.target_nm ≤ nmCompOf r) && !(isInsufficient r.city_tier r.stock_status)

/-- `_calculate_prices` (lines 526–591), per row.  With no `MOP` column the
`cogs` rewrite of line 548 is the identity, and the `fillna` of lines
554–555 is a no-op on rational cells.  `Min_Comp_Price` is already 0-filled
by `run_matching`. -/
def calcPricesRow (r : TargetRow) : CalcRow :=
  let bdpo := bdpoValOf r
  let pmm := priceMinMarginOf r
  let pc := priceCompOf r
  let insuff := isInsufficient r.city_tier r.stock_status
  let brandRule := decide (0 < r.fixed_sdpo_pct)
  let mp1 := if standardMatchOf r then pc else pmm
  let mp2 := if shouldUndercutOf r then pc * (98/100) else mp1
  let mp3 := if brandRule then r.mrp * (1 - r.fixed_sdpo_pct) - bdpo else mp2
  let action :=
    if brandRule then "Brand Rule: Fixed SDPO"
    else if shouldUndercutOf r then "KVI T1 Aggression: Beat Comp by 2%"
    else if insuff then "T2 Insufficient: Ignored Comp Match"
    else ""
  { toTargetRow := r, bdpo_val := bdpo, cogs := r.cogs_latest, price_min_margin := pmm,
    price_comp := pc, pre_brand_price := mp2, model_price := mp3,
    stock_action := action }

/-- Ceiling (lines 598–600): `mrp × 0.96` for OPP, else
`floor(mrp − bdpo_val)`. -/
def ceilFinalOf (r : CalcRow) : ℚ :=
  if r.is_opp then r.mrp * (96/100) else floorQ (r.mrp - r.bdpo_val)

/-- Floor (lines 603–605).  With no `MOP` column `mop_col = 'cogs'`, so both
the conflict branch and the normal branch yield `cogs`. -/
def floorValOf (r : CalcRow) : ℚ := r.cogs

structure PricedRow extends CalcRow where
  ceil_final : ℚ
  floor_val : ℚ
  /-- The frame's `model_price` column after the constraint overwrites of
  lines 608–610 (floor raise, then ceiling cap unless brand rule). -/
  constrained_price : ℚ
  /-- `Modeled Price` after rounding, the missing-COGS overwrite and the
  1-unit floor (lines 611–617). -/
  modeled_price : ℚ
  /-- `Final Price` (line 620). -/
  final_price : ℚ
  final_nm_pct : ℚ
  final_sdpo_pct : ℚ
  /-- The `Stock_Action` column after the missing-COGS overwrite of
  line 616. -/
  final_action : String
  deriving DecidableEq, Repr

/-- `_apply_constraints` (lines 593–626), per row. -/
def applyConstraintsRow (r : CalcRow) : PricedRow :=
  let ceilF := ceilFinalOf r
  let floorV := floorValOf r
  let constrained :=
    if 0 < r.fixed_sdpo_pct then max r.model_price floorV
    else min (max r.model_price floorV) ceilF
  let modeled := if r.cogs ≤ 0 then r.mrp else roundHalfEven constrained
  let action := if r.cogs ≤ 0 then "Fallback: Missing COGS -> MRP" else r.stock_action
  let modeled2 := max modeled 1
  { toCalcRow := r, ceil_final := ceilF, floor_val := floorV,
    constrained_price := constrained, modeled_price := modeled2,
    final_price := modeled2,
    final_nm_pct := (modeled2 - r.cogs + r.bdpo_val) / (if r.mrp = 0 then 1 else r.mrp) * 100,
    final_sdpo_pct := (r.mrp - modeled2 - r.bdpo_val) / (if r.mrp = 0 then 1 else r.mrp) * 100,
    final_action := action }

/-- `PricingEngine.run_pricing` (lines 386–421). -/
def runPricing (matched : List MatchedRow) (stock : List StockRow) (gmv : List GmvRow)
    (sdpo : List SdpoRow) (override : Option ℚ) : List PricedRow :=
  let s := mergeStock matched stock
  let g := mergeGmv s gmv
  let b := mergeSdpo g sdpo
  let t := calculateKviTiers b
  let m := calculateTargetMargins t override
  (m.map calcPricesRow).map applyConstraintsRow

/-- The full engine pipeline of `run_complete_pricing_model` (lines
667–673): matching then pricing. -/
def runPipeline (im : List ImRow) (comp : List CompRow) (cogs : List CogsRow)
    (excl : List ExclRow) (stock : List StockRow) (gmv : List GmvRow)
    (sdpo : List SdpoRow) (override : Option ℚ) : List PricedRow :=
  runPricing (runMatching im comp cogs excl) stock gmv sdpo override

/-! ## List lemmas: sorting, dedup, left merge, grouping -/

theorem insertSorted_perm (lt : α → α → Bool) (x : α) (l : List α) :
    List.Perm (insertSorted lt x l) (x :: l) := by
  induction l with
  | nil => exact List.Perm.refl _
  | cons y ys ih =>
    simp only [insertSorted]
    split_ifs
    · exact (ih.cons y).trans (List.Perm.swap x y ys)
    · exact List.Perm.refl _

theorem sortByB_perm (lt : α → α → Bool) (l : List α) : List.Perm (sortByB lt l) l := by
  induction l with
  | nil => exact List.Perm.refl _
  | cons x xs ih => exact (insertSorted_perm lt x (sortByB lt xs)).trans (ih.cons x)

theorem mem_sortByB {lt : α → α → Bool} {a : α} {l : List α} :
    a ∈ sortByB lt l ↔ a ∈ l :=
  (sortByB_perm lt l).mem_iff

theorem length_sortByB (lt : α → α → Bool) (l : List α) :
    (sortByB lt l).length = l.length :=
  (sortByB_perm lt l).length_eq

theorem mem_dedupByKeyAux {κ : Type _} [DecidableEq κ] {k : α → κ} {seen : List κ}
    {l : List α} {a : α} (ha : a ∈ dedupByKeyAux k seen l) : a ∈ l := by
  induction l generalizing seen with
  | nil => simp [dedupByKeyAux] at ha
  | cons x xs ih =>
    simp only [dedupByKeyAux] at ha
    split_ifs at ha
    · exact List.mem_cons_of_mem _ (ih ha)
    · rcases List.mem_cons.mp ha with h1 | h1
      · exact h1 ▸ List.mem_cons_self _ _
      · exact List.mem_cons_of_mem _ (ih h1)

theorem mem_dedupByKey {κ : Type _} [DecidableEq κ] {k : α → κ} {l : List α} {a : α}
    (ha : a ∈ dedupByKey k l) : a ∈ l :=
  mem_dedupByKeyAux ha

theorem keys_notin_seen_dedupByKeyAux {κ : Type _} [DecidableEq κ] {k : α → κ}
    {seen : List κ} {l : List α} {a : α} (ha : a ∈ dedupByKeyAux k seen l) :
    k a ∉ seen := by
  induction l generalizing seen with
  | nil => simp [dedupByKeyAux] at ha
  | cons x xs ih =>
    simp only [dedupByKeyAux] at ha
    split_ifs at ha with h
    · exact ih ha
    · have hx : k x ∉ seen := fun hc => h (List.any_eq_true.mpr ⟨k x, hc, by simp⟩)
      rcases List.mem_cons.mp ha with h1 | h1
      · exact h1 ▸ hx
      · intro hc
        exact (ih h1) (List.mem_cons_of_mem _ hc)

theorem pairwise_keys_dedupByKeyAux {κ : Type _} [DecidableEq κ] (k : α → κ)
    (seen : List κ) (l : List α) :
    (dedupByKeyAux k seen l).Pairwise fun a b => k a ≠ k b := by
  induction l generalizing seen with
  | nil => simp [dedupByKeyAux]
  | cons x xs ih =>
    simp only [dedupByKeyAux]
    split_ifs with h
    · exact ih seen
    · refine List.pairwise_cons.mpr ⟨fun b hb => ?_, ih (k x :: seen)⟩
      intro hc
      exact (keys_notin_seen_dedupByKeyAux hb) (hc ▸ List.mem_cons_self _ _)

theorem pairwise_keys_dedupByKey {κ : Type _} [DecidableEq κ] (k : α → κ) (l : List α) :
    (dedupByKey k l).Pairwise fun a b => k a ≠ k b :=
  pairwise_keys_dedupByKeyAux k [] l

theorem mem_dedupByKeyAux_id [DecidableEq α] {seen : List α} {l : List α} {a : α} :
    a ∈ dedupByKeyAux id seen l ↔ a ∈ l ∧ a ∉ seen := by
  induction l generalizing seen with
  | nil => simp [dedupByKeyAux]
  | cons x xs ih =>
    simp only [dedupByKeyAux, id]
    split_ifs with h
    · have hx : x ∈ seen := by
        rcases List.any_eq_true.mp h with ⟨y, hy, hyx⟩
        exact (of_decide_eq_true hyx) ▸ hy
      rw [ih]
      constructor
      · rintro ⟨h1, h2⟩
        exact ⟨List.mem_cons_of_mem _ h1, h2⟩
      · rintro ⟨h1, h2⟩
        rcases List.mem_cons.mp h1 with rfl | h1
        · exact absurd hx h2
        · exact ⟨h1, h2⟩
    · have hx : x ∉ seen := fun hc => h (List.any_eq_true.mpr ⟨x, hc, by simp⟩)
      constructor
      · intro ha
        rcases List.mem_cons.mp ha with rfl | h1
        · exact ⟨List.mem_cons_self _ _, hx⟩
        · rcases ih.mp h1 with ⟨h2, h3⟩
          exact ⟨List.mem_cons_of_mem _ h2, fun hc => h3 (List.mem_cons_of_mem _ hc)⟩
      · rintro ⟨h1, h2⟩
        rcases List.mem_cons.mp h1 with rfl | h1
        · exact List.mem_cons_self _ _
        · by_cases hax : a = x
          · exact hax ▸ List.mem_cons_self _ _
          · exact List.mem_cons_of_mem _ (ih.mpr
              ⟨h1, fun hc => (List.mem_cons.mp hc).elim hax h2⟩)

theorem mem_groupKeys {κ : Type _} [DecidableEq κ] {k : α → κ} {l : List α} {a : α}
    (ha : a ∈ l) : k a ∈ groupKeys k l :=
  mem_dedupByKeyAux_id.mpr ⟨List.mem_map_of_mem k ha, List.not_mem_nil _⟩

theorem pairwise_groupKeys {κ : Type _} [DecidableEq κ] (k : α → κ) (l : List α) :
    (groupKeys k l).Pairwise (· ≠ ·) := by
  have := pairwise_keys_dedupByKey (id : κ → κ) (l.map k)
  simpa using this

theorem length_filter_le_one_of_pairwise {p : α → Bool} {l : List α}
    (hpw : l.Pairwise fun a b => p a = true → p b = true → False) :
    (l.filter p).length ≤ 1 := by
  induction l with
  | nil => simp
  | cons x xs ih =>
    rcases List.pairwise_cons.mp hpw with ⟨hx, hxs⟩
    by_cases hp : p x
    · have hnil : xs.filter p = [] :=
        List.filter_eq_nil_iff.mpr fun b hb hpb => hx b hb hp hpb
      simp [List.filter_cons, hp, hnil]
    · simpa [List.filter_cons, hp] using ih hxs

theorem length_filter_key_le_one {κ : Type _} {k : α → κ} {l : List α}
    (h : l.Pairwise fun a b => k a ≠ k b) {p : α → Bool} {x : κ}
    (hp : ∀ a, p a = true → k a = x) : (l.filter p).length ≤ 1 :=
  length_filter_le_one_of_pairwise
    (h.imp fun hne hpa hpb => hne ((hp _ hpa).trans (hp _ hpb).symm))

theorem length_filter_le_one_of_det {l : List α} (hnd : l.Pairwise (· ≠ ·))
    {p : α → Bool} (hdet : ∀ a ∈ l, ∀ b ∈ l, p a = true → p b = true → a = b) :
    (l.filter p).length ≤ 1 := by
  induction l with
  | nil => simp
  | cons x xs ih =>
    rcases List.pairwise_cons.mp hnd with ⟨hx, hxs⟩
    by_cases hp : p x
    · have hnil : xs.filter p = [] := List.filter_eq_nil_iff.mpr fun b hb hpb =>
        (hx b hb) (hdet x (List.mem_cons_self _ _) b (List.mem_cons_of_mem _ hb) hp hpb)
      simp [List.filter_cons, hp, hnil]
    · simpa [List.filter_cons, hp] using
        ih hxs fun a ha b hb => hdet a (List.mem_cons_of_mem _ ha) b (List.mem_cons_of_mem _ hb)

theorem length_leftMergeWith {key : α → β → Bool} {emb : α → Option β → γ}
    {ls : List α} {rs : List β} (h : ∀ l ∈ ls, (rs.filter (key l)).length ≤ 1) :
    (leftMergeWith key emb ls rs).length = ls.length := by
  induction ls with
  | nil => rfl
  | cons l ls ih =>
    have hrest := ih fun a ha => h a (List.mem_cons_of_mem _ ha)
    have hl := h l (List.mem_cons_self _ _)
    simp only [leftMergeWith, List.flatMap_cons] at *
    cases hfl : rs.filter (key l) with
    | nil => simp [hfl, hrest]
    | cons m ms =>
      have hms : ms = [] := by
        rw [hfl] at hl
        simp only [List.length_cons] at hl
        exact List.length_eq_zero.mp (by omega)
      subst hms
      simp [hfl, hrest]

theorem map_leftMergeWith {key : α → β → Bool} {emb : α → Option β → γ}
    {ls : List α} {rs : List β} (h : ∀ l ∈ ls, (rs.filter (key l)).length ≤ 1)
    (g : γ → δ) (g₀ : α → δ) (hg : ∀ l m, g (emb l m) = g₀ l) :
    (leftMergeWith key emb ls rs).map g = ls.map g₀ := by
  induction ls with
  | nil => rfl
  | cons l ls ih =>
    have hrest := ih fun a ha => h a (List.mem_cons_of_mem _ ha)
    have hl := h l (List.mem_cons_self _ _)
    simp only [leftMergeWith, List.flatMap_cons] at *
    cases hfl : rs.filter (key l) with
    | nil => simp [hfl, hrest, hg]
    | cons m ms =>
      have hms : ms = [] := by
        rw [hfl] at hl
        simp only [List.length_cons] at hl
        exact List.length_eq_zero.mp (by omega)
      subst hms
      simp [hfl, hrest, hg]

theorem mem_leftMergeWith {key : α → β → Bool} {emb : α → Option β → γ}
    {ls : List α} {rs : List β} {c : γ} (hc : c ∈ leftMergeWith key emb ls rs) :
    ∃ l ∈ ls, c = emb l none ∨ ∃ m ∈ rs, c = emb l (some m) := by
  simp only [leftMergeWith, List.mem_flatMap] at hc
  obtain ⟨l, hl, hc⟩ := hc
  refine ⟨l, hl, ?_⟩
  cases hfl : rs.filter (key l) with
  | nil =>
    rw [hfl] at hc
    exact Or.inl (List.mem_singleton.mp hc)
  | cons m ms =>
    rw [hfl] at hc
    rcases List.mem_map.mp hc with ⟨m', hm', rfl⟩
    exact Or.inr ⟨m', List.mem_of_mem_filter (hfl ▸ hm'), rfl⟩

theorem flatMap_congr_mem {κ : Type _} {f g : κ → List α} {ks : List κ}
    (h : ∀ j ∈ ks, f j = g j) : ks.flatMap f = ks.flatMap g := by
  induction ks with
  | nil => rfl
  | cons j js ih =>
    simp only [List.flatMap_cons, h j (List.mem_cons_self _ _),
      ih fun a ha => h a (List.mem_cons_of_mem _ ha)]

/-- A partition permutation: grouping a list by its keys and concatenating
the groups permutes the original list. -/
theorem flatMap_filter_perm {κ : Type _} [DecidableEq κ] {k : α → κ}
    (ks : List κ) (l : List α) (hnd : ks.Pairwise (· ≠ ·))
    (hcov : ∀ a ∈ l, k a ∈ ks) :
    List.Perm (ks.flatMap fun kk => l.filter fun a => decide (k a = kk)) l := by
  induction ks generalizing l with
  | nil =>
    have : l = [] := List.eq_nil_iff_forall_not_mem.mpr fun a ha => by
      simpa using hcov a ha
    simp [this]
  | cons kk ks ih =>
    rcases List.pairwise_cons.mp hnd with ⟨hkk, hks⟩
    simp only [List.flatMap_cons]
    have hcongr : ∀ j ∈ ks,
        (l.filter fun a => decide (k a = j))
          = ((l.filter fun a => !decide (k a = kk)).filter fun a => decide (k a = j)) := by
      intro j hj
      rw [List.filter_filter]
      apply (List.filter_congr ?_).symm
      intro a _
      by_cases hkaj : k a = j
      · have hjkk : ¬ j = kk := fun hc => hkk j hj hc.symm
        simp [hkaj, hjkk]
      · simp [hkaj]
    have hcov' : ∀ a ∈ l.filter fun a => !decide (k a = kk), k a ∈ ks := by
      intro a ha
      rcases List.mem_filter.mp ha with ⟨hal, hne⟩
      rcases List.mem_cons.mp (hcov a hal) with hc | hc
      · exact absurd (decide_eq_true hc) (by simpa using hne)
      · exact hc
    rw [flatMap_congr_mem hcongr]
    exact ((ih _ hks hcov').append_left _).trans (List.filter_append_perm _ l)

/-! ## Numeric lemmas about rounding -/

theorem le_roundHalfEven_floor (x : ℚ) : (floorZ x : ℚ) ≤ roundHalfEven x := by
  simp only [roundHalfEven]
  split_ifs <;> linarith

theorem le_roundHalfEven_of_int_le {c x : ℚ} (hint : (floorZ c : ℚ) = c)
    (h : c ≤ x) : c ≤ roundHalfEven x := by
  have h1 : floorZ c ≤ floorZ x := by
    rw [floorZ_eq, floorZ_eq]; exact Int.floor_le_floor h
  have h2 : (floorZ c : ℚ) ≤ (floorZ x : ℚ) := by exact_mod_cast h1
  calc c = (floorZ c : ℚ) := hint.symm
    _ ≤ (floorZ x : ℚ) := h2
    _ ≤ roundHalfEven x := le_roundHalfEven_floor x

/-! ## Claim theorems -/

/-- C2 (amended): for a priced row with `cost > 0`, `final_price ≥ cost`
holds provided the cost is a whole number of currency units and, unless the
brand rule exempts the row from the ceiling, the ceiling is at least the
cost.  (As stated the claim is false: the ceiling is applied after the cost
floor and wins a conflict, and rounding can dip below a fractional cost —
see the counterexample.) -/
theorem c2_final_price_ge_cost (r : CalcRow) (hc : 0 < r.cogs)
    (hint : (floorZ r.cogs : ℚ) = r.cogs)
    (hceil : 0 < r.fixed_sdpo_pct ∨ r.cogs ≤ ceilFinalOf r) :
    r.cogs ≤ (applyConstraintsRow r).final_price := by
  unfold applyConstraintsRow
  simp only [floorValOf]
  have hnot : ¬ r.cogs ≤ 0 := not_le.mpr hc
  have hconstr :
      r.cogs ≤ (if 0 < r.fixed_sdpo_pct then max r.model_price r.cogs
        else min (max r.model_price r.cogs) (ceilFinalOf r)) := by
    split_ifs with hbrand
    · exact le_max_right _ _
    · rcases hceil with hp | hle
      · exact absurd hp hbrand
      · exact le_min (le_max_right _ _) hle
  simp only [hnot, if_false]
  exact le_max_of_le_left (le_roundHalfEven_of_int_le hint hconstr)

/-- The spacing rule in the spec's words, modelled from the spec for
comparison with the engine's `spacedAux`: keep the first observation, then
keep each subsequent observation exactly when its price is at least 1.05
times the last kept price. -/
def specSpacedFrom (last : ℚ) : List ℚ → List ℚ
  | [] => []
  | y :: ys => if last * (105/100) ≤ y then y :: specSpacedFrom y ys else specSpacedFrom last ys

def specSpaced : List ℚ → List ℚ
  | [] => []
  | x :: xs => x :: specSpacedFrom x xs

theorem spacedAux_eq_specSpacedFrom (last : ℚ) (l : List ℚ) :
    spacedAux id last l = specSpacedFrom last l := by
  induction l generalizing last with
  | nil => rfl
  | cons y ys ih =>
    simp only [spacedAux, specSpacedFrom, id]
    split_ifs <;> rw [ih]

/-- C3: the engine's spaced subsequence agrees with the spec's rule (keep
the first, then keep exactly the observations ≥ 1.05 × the last kept one)
whenever the pool's prices are non-negative, and on the spec's concrete
pool `[10, 10.2, 10.6, 12]` it yields `[10, 10.6, 12]`.  (For a pool whose
head were negative the engine would also drop the first observation, since
its running `last_price` starts at 0.) -/
theorem c3_spacing_rule :
    (∀ (l : List ℚ), (∀ y ∈ l, 0 ≤ y) → spaced id l = specSpaced l) ∧
      spaced id [10, 102/10, 106/10, 12] = [10, 106/10, 12] := by
  constructor
  · intro l hl
    cases l with
    | nil => rfl
    | cons x xs =>
      have hx : (0 : ℚ) ≤ x := hl x (List.mem_cons_self x xs)
      simp only [spaced, spacedAux, specSpaced, id_eq, zero_mul]
      rw [if_pos hx, spacedAux_eq_specSpacedFrom]
  · norm_num [spaced, spacedAux]

/-- C4: when `Fixed_SDPO_Pct > 0` the cascade's model price is
`mrp × (1 − Fixed_SDPO_Pct) − bdpo_val`, overriding the default,
competitor-aligned and Tier-1-undercut rules, and the constraint stage
leaves it exempt from the ceiling: the constrained price is only the
floor-raise `max(model_price, floor)`, with no `min` against the ceiling. -/
theorem c4_brand_rule_overrides_and_skips_ceiling (r : TargetRow)
    (h : 0 < r.fixed_sdpo_pct) :
    (calcPricesRow r).model_price
        = r.mrp * (1 - r.fixed_sdpo_pct) - bdpoVal r.mrp r.bdpo ∧
      (applyConstraintsRow (calcPricesRow r)).constrained_price
        = max (calcPricesRow r).model_price (floorValOf (calcPricesRow r)) := by
  constructor
  · simp only [calcPricesRow, decide_eq_true_eq, h, decide_True, if_true, bdpoValOf]
  · have hp : (calcPricesRow r).fixed_sdpo_pct = r.fixed_sdpo_pct := rfl
    simp only [applyConstraintsRow, hp, h, if_pos]

/-- Modelled from the spec: the tier a product receives when, within its
`(city, pack_category)` group, products are first ordered descending by
revenue-weight and the cumulative 0.80/0.95 cut-offs are then applied — the
reading claim C5 asserts.  The code's `calculateKviTiers` instead
accumulates in the frame's given row order without sorting. -/
def specTierOf (df : List SdpoMergedRow) (r : SdpoMergedRow) : String :=
  let grp := df.filter fun s =>
    s.city == r.city && packCategory s.normalized_uom == packCategory r.normalized_uom
  let sorted := sortByB (fun a b => decide (b.gmv_contribution < a.gmv_contribution)) grp
  let idx := sorted.findIdx fun s => decide (s = r)
  let cum := ((sorted.take (idx + 1)).map (·.gmv_contribution)).sum
  let tot := (grp.map (·.gmv_contribution)).sum
  let pareto := cum / (if tot = 0 then 1 else tot)
  if r.gmv_contribution = 0 then "Tier 3"
  else if pareto ≤ 80/100 then "Tier 1"
  else if pareto ≤ 95/100 then "Tier 2"
  else "Tier 3"

/-- C5 (amended): within each `(city, pack_category)` group the code
assigns `Tier 1` while the cumulative revenue share — accumulated in the
table's given row order, with no descending-weight sort — is ≤ 0.80,
`Tier 2` while ≤ 0.95, else `Tier 3`, and every zero-weight product is
`Tier 3` regardless.  (As stated, with rows ordered descending by weight,
the claim is false — see the counterexample.) -/
theorem c5_tiers_accumulate_in_given_order (df : List SdpoMergedRow) (i : ℕ)
    (r : SdpoMergedRow) (h : df[i]? = some r) :
    ((calculateKviTiers df).map (·.kvi_tier))[i]? = some (
      if r.gmv_contribution = 0 then "Tier 3"
      else
        let grp := fun s : SdpoMergedRow =>
          s.city == r.city && packCategory s.normalized_uom == packCategory r.normalized_uom
        let cum := (((df.take (i + 1)).filter grp).map (·.gmv_contribution)).sum
        let tot := ((df.filter grp).map (·.gmv_contribution)).sum
        let pareto := cum / (if tot = 0 then 1 else tot)
        if pareto ≤ 80/100 then "Tier 1"
        else if pareto ≤ 95/100 then "Tier 2"
        else "Tier 3") := by
  simp only [calculateKviTiers, List.map_map, List.getElem?_map, List.getElem?_enum, h,
    Option.map_some', Function.comp]

/-- C6 (amended): the pre-brand cascade price is `comp_price × 0.98` exactly
when the product is Tier 1, has a competitor match, its competitor-implied
margin strictly exceeds target, and it is NOT (in a T2 city AND
stock-insufficient); otherwise the standard-match/default value stands.
(As stated — with a plain "not stock-insufficient" fourth condition — the
claim is false: a T1-city product with insufficient stock is still
undercut; see the counterexample.) -/
theorem c6_undercut_exactly_under_conditions (r : TargetRow) :
    (calcPricesRow r).pre_brand_price =
      (if (r.kvi_tier == "Tier 1") && decide (0 < r.min_comp_price) &&
          decide (r.target_nm < nmCompOf r) &&
          !(r.city_tier == "T2" && lowerStr r.stock_status == "insufficient")
       then priceCompOf r * (98/100)
       else if decide (r.target_nm ≤ nmCompOf r) &&
          !(r.city_tier == "T2" && lowerStr r.stock_status == "insufficient")
       then priceCompOf r
       else priceMinMarginOf r) := by
  simp only [calcPricesRow, shouldUndercutOf, standardMatchOf, isInsufficient]

/-- C7: a row with `cost ≤ 0` bypasses the cascade and the ceiling/floor
constraints — its final price is its MRP (floored at 1 unit, independent of
any cascade output) with the explicit fallback reason recorded — and every
row's final price is at least 1 currency unit. -/
theorem c7_missing_cost_fallback (r : CalcRow) :
    (r.cogs ≤ 0 →
        (applyConstraintsRow r).final_price = max r.mrp 1 ∧
        (applyConstraintsRow r).final_action = "Fallback: Missing COGS -> MRP") ∧
      1 ≤ (applyConstraintsRow r).final_price := by
  constructor
  · intro h
    constructor
    · simp only [applyConstraintsRow, h, if_pos]
    · simp only [applyConstraintsRow, h, if_pos]
  · simp only [applyConstraintsRow]
    exact le_max_right _ _

/-- C8: the unit normalizer meets the specified cases:
`normalize("1 pack (6 pcs)", name)` is `"6_pieces"` for every `name`;
`normalize("500g", "Brand Eggs 12 Pieces")` is `"12_pieces"`;
`normalize("", "")` is the empty string, one of the normalizer's own
missing markers and not a 0-count pack token; and
`normalize("250ml", "")` is `"250_ml"`. -/
theorem c8_normalizer_cases :
    (∀ name : String, normalize "1 pack (6 pcs)" name = "6_pieces") ∧
      normalize "500g" "Brand Eggs 12 Pieces" = "12_pieces" ∧
      (normalize "" "" = "" ∧ isMissingUom (normalize "" "") = true ∧
        normalize "" "" ≠ "0_pieces") ∧
      normalize "250ml" "" = "250_ml" := by
  refine ⟨fun name => ?_, by decide, ⟨by decide, by decide, by decide⟩, by decide⟩
  show normalize "1 pack (6 pcs)" name = "6_pieces"
  simp only [normalize]
  norm_num [show parseUomString (cleanStr "1 pack (6 pcs)") = "6_pieces" from by decide,
    show isWeightOrVol "6_pieces" = false from by decide,
    show isMissingUom "6_pieces" = false from by decide]

/-! ## Non-negativity of matched prices (claim C9) -/

theorem spacedAux_price_nonneg {price : α → ℚ} {last : ℚ} (hlast : 0 ≤ last)
    {l : List α} {c : α} (hc : c ∈ spacedAux price last l) : 0 ≤ price c := by
  induction l generalizing last with
  | nil => simp [spacedAux] at hc
  | cons y ys ih =>
    simp only [spacedAux] at hc
    split_ifs at hc with h
    · have hbar : (0 : ℚ) ≤ last * (105/100) :=
        mul_nonneg hlast (by norm_num)
      rcases List.mem_cons.mp hc with rfl | hc2
      · linarith
      · exact ih (by linarith : (0:ℚ) ≤ price y) hc2
    · exact ih hlast hc

theorem matchOpp_price_nonneg {im : List PrepRow} {comp : List CompPRow} {m : MatchRow}
    (hm : m ∈ matchOpp im comp) : ∀ p, m.min_comp_price = some p → 0 ≤ p := by
  simp only [matchOpp, List.mem_flatMap] at hm
  obtain ⟨kk, _, hm⟩ := hm
  simp only [matchOppGroup, List.mem_map] at hm
  obtain ⟨⟨i, row⟩, _, rfl⟩ := hm
  intro p hp
  rcases hv : (spaced (·.selling_price)
      (sortByB (fun a b => decide (a.selling_price < b.selling_price))
        ((comp.filter fun c =>
          match c.price_per_piece with
          | some pp => decide (pp ≤ 10)
          | none => false).filter fun c =>
            c.city_clean == kk.1 && c.uom_clean == kk.2.1 && c.egg_type == kk.2.2))).get? i
    with _ | mm
  · rw [hv] at hp
    simp at hp
  · rw [hv] at hp
    simp only [Option.some.injEq] at hp
    have hmem : mm ∈ spaced (·.selling_price) _ := List.get?_mem hv
    exact hp ▸ spacedAux_price_nonneg le_rfl hmem

theorem candsPrice_mem {imNon : List PrepRow} {comp : List CompPRow} {c : CandRow}
    (hc : c ∈ m1Cands imNon comp ++ m2Cands imNon comp) :
    ∃ cp ∈ comp, c.selling_price = cp.selling_price := by
  rcases List.mem_append.mp hc with h | h <;>
  · first
    | simp only [m1Cands, List.mem_flatMap, List.mem_map] at h
    | simp only [m2Cands, List.mem_flatMap, List.mem_map] at h
    obtain ⟨r, _, cp, hcp, rfl⟩ := h
    exact ⟨cp, List.mem_of_mem_filter hcp, rfl⟩

theorem nonOppHits_price {imNon : List PrepRow} {comp : List CompPRow} {c : CandRow}
    (hc : c ∈ nonOppHits imNon comp) :
    ∃ cp ∈ comp, c.selling_price = cp.selling_price :=
  candsPrice_mem (mem_sortByB.mp (mem_dedupByKey hc))

theorem matchNonOpp_price {im : List PrepRow} {comp : List CompPRow} {m : MatchRow}
    (hm : m ∈ matchNonOpp im comp) :
    m.min_comp_price = none ∨ ∃ cp ∈ comp, m.min_comp_price = some cp.selling_price := by
  simp only [matchNonOpp] at hm
  obtain ⟨r, _, hcase⟩ := mem_leftMergeWith hm
  rcases hcase with rfl | ⟨h, hh, rfl⟩
  · exact Or.inl rfl
  · obtain ⟨cp, hcp, he⟩ := nonOppHits_price hh
    exact Or.inr ⟨cp, hcp, by simp [he]⟩

theorem t2Work_price {opp nonOpp : List MatchRow} {im : List PrepRow}
    (hall : ∀ m ∈ opp ++ nonOpp, ∀ p, m.min_comp_price = some p → 0 ≤ p)
    {w : WorkRow} (hw : w ∈ t2Work opp nonOpp im) :
    ∀ p, w.min_comp_price = some p → 0 ≤ p := by
  obtain ⟨mm, hmm, hcase⟩ := mem_leftMergeWith hw
  rcases hcase with rfl | ⟨t, _, rfl⟩ <;> exact hall mm hmm

theorem t2FallbackRow_price {work : List WorkRow}
    (hwork : ∀ w ∈ work, ∀ p, w.min_comp_price = some p → 0 ≤ p)
    {w : WorkRow} (hw : w ∈ work) :
    ∀ p, (t2FallbackRow (t2Lookup work) w).min_comp_price = some p → 0 ≤ p := by
  intro p hp
  unfold t2FallbackRow at hp
  split_ifs at hp with hcond
  · rcases hfind : (t2Lookup work).find?
        (fun t => t.state == w.state && t.item_code == w.item_code) with _ | d
    · rw [hfind] at hp
      exact hwork w hw p hp
    · rw [hfind] at hp
      simp only at hp
      have hd : d ∈ t2Lookup work := List.mem_of_find?_eq_some hfind
      have hdf : d ∈ work.filter fun v =>
          v.city_tier == "T1" &&
            (match v.min_comp_price with | some q => decide (0 < q) | none => false) :=
        mem_sortByB.mp (mem_dedupByKey hd)
      rcases List.mem_filter.mp hdf with ⟨_, hpred⟩
      simp only [Bool.and_eq_true] at hpred
      obtain ⟨_, hq⟩ := hpred
      rcases hdp : d.min_comp_price with _ | q
      · rw [hdp] at hq
        simp at hq
      · rw [hdp] at hp hq
        rcases Option.some.inj hp with rfl
        exact le_of_lt (of_decide_eq_true hq)
  · exact hwork w hw p hp

theorem getD_nonneg {o : Option ℚ} (h : ∀ p, o = some p → 0 ≤ p) : 0 ≤ o.getD 0 := by
  cases o with
  | none => norm_num
  | some p => exact h p rfl

/-- Every price a competitor row carries through preparation and exclusion
is one of the raw competitor selling prices. -/
theorem compP_price_nonneg {comp : List CompRow} {excl : List ExclRow}
    (hcomp : ∀ c ∈ comp, 0 ≤ c.selling_price) :
    ∀ cp ∈ applyExclusions (comp.map prepComp) excl, 0 ≤ cp.selling_price := by
  intro cp hcp
  simp only [applyExclusions] at hcp
  obtain ⟨c, hc, rfl⟩ := List.mem_map.mp (List.mem_of_mem_filter hcp)
  exact hcomp c hc

/-- C9 (amended): provided every competitor observation's selling price is
non-negative, every `run_matching` output row carries a non-negative
`Min_Comp_Price` (0 standing for "no match" after the `fillna(0)`).  The
OPP spaced matching and the T2 fallback preserve this even without the
hypothesis; the branded attribute join copies a raw competitor price, so a
negative observation flows straight through — see the counterexample. -/
theorem c9_matched_price_nonneg (im : List ImRow) (comp : List CompRow)
    (cogs : List CogsRow) (excl : List ExclRow)
    (hcomp : ∀ c ∈ comp, 0 ≤ c.selling_price) :
    ∀ r ∈ runMatching im comp cogs excl, 0 ≤ r.min_comp_price := by
  intro r hr
  simp only [runMatching] at hr
  obtain ⟨l, _, hcase⟩ := mem_leftMergeWith hr
  have hall : ∀ m ∈ matchOpp (prepIm im cogs) (applyExclusions (comp.map prepComp) excl) ++
      matchNonOpp (prepIm im cogs) (applyExclusions (comp.map prepComp) excl),
      ∀ p, m.min_comp_price = some p → 0 ≤ p := by
    intro m hm
    rcases List.mem_append.mp hm with h | h
    · exact matchOpp_price_nonneg h
    · intro p hp
      rcases matchNonOpp_price h with hn | ⟨cp, hcp, he⟩
      · rw [hn] at hp
        exact absurd hp (by simp)
      · rw [he] at hp
        rcases Option.some.inj hp with rfl
        exact compP_price_nonneg hcomp cp hcp
  rcases hcase with rfl | ⟨mm, hmm, rfl⟩
  · norm_num
  · simp only [applyT2Fallback, List.mem_map] at hmm
    obtain ⟨w, hw, rfl⟩ := hmm
    exact getD_nonneg (t2FallbackRow_price (fun v hv => t2Work_price hall hv) hw)

/-! ## Completeness: one output row per input product (claim C1) -/

def imKey0 (r : ImRow) : String × ℤ := (r.city, r.item_code)

def imKey (r : PrepRow) : String × ℤ := (r.city, r.item_code)

def mKey (m : MatchRow) : String × ℤ := (m.city, m.item_code)

def wKey (w : WorkRow) : String × ℤ := (w.city, w.item_code)

theorem pairwise_ne_of_map_nodup {κ : Type _} {k : α → κ} {l : List α}
    (h : (l.map k).Nodup) : l.Pairwise fun a b => k a ≠ k b :=
  List.pairwise_map.mp h

theorem prepIm_cogs_filter_le_one {cogs : List CogsRow}
    (Hcogs : (cogs.map fun c => (c.item_code, cleanStr c.city)).Nodup) (r : PrepRow) :
    (cogs.filter fun c =>
      c.item_code == r.item_code && cleanStr c.city == r.city_clean).length ≤ 1 := by
  apply length_filter_key_le_one (pairwise_ne_of_map_nodup Hcogs)
    (x := (r.item_code, r.city_clean))
  intro a ha
  simp only [Bool.and_eq_true, beq_iff_eq] at ha
  exact Prod.ext ha.1 ha.2

theorem prepIm_length {im : List ImRow} {cogs : List CogsRow}
    (Hcogs : (cogs.map fun c => (c.item_code, cleanStr c.city)).Nodup) :
    (prepIm im cogs).length = im.length := by
  unfold prepIm
  rw [length_leftMergeWith fun l _ => prepIm_cogs_filter_le_one Hcogs l, List.length_map]

theorem prepIm_map_key {im : List ImRow} {cogs : List CogsRow}
    (Hcogs : (cogs.map fun c => (c.item_code, cleanStr c.city)).Nodup) :
    (prepIm im cogs).map imKey = im.map imKey0 := by
  unfold prepIm
  refine (map_leftMergeWith (fun l _ => prepIm_cogs_filter_le_one Hcogs l) imKey imKey
    ?_).trans ?_
  · intro l m
    rfl
  · rw [List.map_map]
    rfl

theorem matchOppGroup_map_key (subIm : List PrepRow) (valid : List CompPRow) :
    (matchOppGroup subIm valid).map mKey = subIm.map imKey := by
  unfold matchOppGroup
  rw [List.map_map,
    show subIm.map imKey = subIm.enum.map (imKey ∘ Prod.snd) by
      rw [← List.map_map, List.enum_map_snd]]
  apply List.map_congr_left
  rintro ⟨i, row⟩ _
  simp only [Function.comp]
  cases valid.get? i <;> rfl

theorem flatMap_perm_of_forall {κ : Type _} {f g : κ → List β} {ks : List κ}
    (h : ∀ k ∈ ks, List.Perm (f k) (g k)) :
    List.Perm (ks.flatMap f) (ks.flatMap g) := by
  induction ks with
  | nil => exact List.Perm.refl _
  | cons k ksr ih =>
    simp only [List.flatMap_cons]
    exact (h k (List.mem_cons_self _ _)).append
      (ih fun a ha => h a (List.mem_cons_of_mem _ ha))

theorem matchOpp_keys_perm (imP : List PrepRow) (comp : List CompPRow) :
    List.Perm ((matchOpp imP comp).map mKey) ((imP.filter (·.is_opp)).map imKey) := by
  unfold matchOpp
  rw [List.map_flatMap]
  have h1 : ∀ kk ∈ groupKeys oppGroupKey (imP.filter (·.is_opp)),
      List.Perm
        ((matchOppGroup
          (sortByB (fun a b => decide (a.cogs_latest < b.cogs_latest))
            ((imP.filter (·.is_opp)).filter fun r => decide (oppGroupKey r = kk)))
          (spaced (·.selling_price)
            (sortByB (fun a b => decide (a.selling_price < b.selling_price))
              ((comp.filter fun c =>
                match c.price_per_piece with
                | some p => decide (p ≤ 10)
                | none => false).filter fun c =>
                  c.city_clean == kk.1 && c.uom_clean == kk.2.1 &&
                    c.egg_type == kk.2.2)))).map mKey)
        (((imP.filter (·.is_opp)).filter fun r => decide (oppGroupKey r = kk)).map imKey) := by
    intro kk _
    rw [matchOppGroup_map_key]
    exact (sortByB_perm _ _).map imKey
  refine (flatMap_perm_of_forall h1).trans ?_
  rw [← List.map_flatMap]
  exact (flatMap_filter_perm _ _ (pairwise_groupKeys _ _) fun a ha => mem_groupKeys ha).map imKey

theorem hits_filter_le_one (imNon : List PrepRow) (comp : List CompPRow) (r : PrepRow) :
    ((nonOppHits imNon comp).filter fun h =>
      h.city == r.city && h.item_code == r.item_code).length ≤ 1 := by
  apply length_filter_key_le_one (pairwise_keys_dedupByKey _ _)
    (x := (r.city, r.item_code))
  intro a ha
  simp only [Bool.and_eq_true, beq_iff_eq] at ha
  exact Prod.ext ha.1 ha.2

theorem matchNonOpp_length (imP : List PrepRow) (comp : List CompPRow) :
    (matchNonOpp imP comp).length = (imP.filter fun r => !r.is_opp).length := by
  unfold matchNonOpp
  exact length_leftMergeWith fun l _ => hits_filter_le_one _ _ l

theorem matchNonOpp_map_key (imP : List PrepRow) (comp : List CompPRow) :
    (matchNonOpp imP comp).map mKey = (imP.filter fun r => !r.is_opp).map imKey := by
  unfold matchNonOpp
  exact map_leftMergeWith (fun l _ => hits_filter_le_one _ _ l) mKey imKey
    (fun l m => by cases m <;> rfl)

theorem prepIm_tier_state {im : List ImRow} {cogs : List CogsRow} {r : PrepRow}
    (hr : r ∈ prepIm im cogs) :
    r.city_tier = cityTier (cleanStr r.city) ∧ r.state = stateOf (cleanStr r.city) := by
  unfold prepIm at hr
  obtain ⟨l, hl, hcase⟩ := mem_leftMergeWith hr
  obtain ⟨i, _, rfl⟩ := List.mem_map.mp hl
  rcases hcase with rfl | ⟨c, _, rfl⟩ <;> exact ⟨rfl, rfl⟩

theorem metaOf_filter_le_one {im : List ImRow} {cogs : List CogsRow} (m : MatchRow) :
    ((metaOf (prepIm im cogs)).filter fun t =>
      t.1 == m.item_code && t.2.1 == m.city).length ≤ 1 := by
  apply length_filter_le_one_of_det
  · simpa using pairwise_keys_dedupByKeyAux (id : ℤ × String × String × String → _) []
      ((prepIm im cogs).map fun r => (r.item_code, r.city, r.city_tier, r.state))
  · intro a ha b hb hpa hpb
    obtain ⟨ra, hra, rfl⟩ := List.mem_map.mp (mem_dedupByKey ha)
    obtain ⟨rb, hrb, rfl⟩ := List.mem_map.mp (mem_dedupByKey hb)
    simp only [Bool.and_eq_true, beq_iff_eq] at hpa hpb
    obtain ⟨ta, sa⟩ := prepIm_tier_state hra
    obtain ⟨tb, sb⟩ := prepIm_tier_state hrb
    have hcode : ra.item_code = rb.item_code := hpa.1.trans hpb.1.symm
    have hcity : ra.city = rb.city := hpa.2.trans hpb.2.symm
    simp only [Prod.mk.injEq]
    refine ⟨hcode, hcity, ?_, ?_⟩
    · rw [ta, tb, hcity]
    · rw [sa, sb, hcity]

theorem t2Work_length {opp nonOpp : List MatchRow} {im : List ImRow} {cogs : List CogsRow} :
    (t2Work opp nonOpp (prepIm im cogs)).length = (opp ++ nonOpp).length := by
  unfold t2Work
  exact length_leftMergeWith fun m _ => metaOf_filter_le_one m

theorem t2Work_map_key {opp nonOpp : List MatchRow} {im : List ImRow} {cogs : List CogsRow} :
    (t2Work opp nonOpp (prepIm im cogs)).map wKey = (opp ++ nonOpp).map mKey := by
  unfold t2Work
  exact map_leftMergeWith (fun m _ => metaOf_filter_le_one m) wKey mKey fun l m => rfl

theorem t2FallbackRow_key (t1s : List WorkRow) (w : WorkRow) :
    mKey (t2FallbackRow t1s w) = wKey w := by
  unfold t2FallbackRow
  split_ifs
  · cases t1s.find? fun t => t.state == w.state && t.item_code == w.item_code <;> rfl
  · rfl

theorem applyT2Fallback_map_key {opp nonOpp : List MatchRow} {im : List ImRow}
    {cogs : List CogsRow} :
    (applyT2Fallback opp nonOpp (prepIm im cogs)).map mKey = (opp ++ nonOpp).map mKey := by
  unfold applyT2Fallback
  rw [List.map_map]
  refine (List.map_congr_left ?_).trans t2Work_map_key
  intro w _
  simpa using t2FallbackRow_key _ w

theorem applyT2Fallback_length {opp nonOpp : List MatchRow} {im : List ImRow}
    {cogs : List CogsRow} :
    (applyT2Fallback opp nonOpp (prepIm im cogs)).length = (opp ++ nonOpp).length := by
  unfold applyT2Fallback
  rw [List.length_map]
  exact t2Work_length

theorem runMatching_length (im : List ImRow) (comp : List CompRow) (cogs : List CogsRow)
    (excl : List ExclRow) (Him : (im.map imKey0).Nodup)
    (Hcogs : (cogs.map fun c => (c.item_code, cleanStr c.city)).Nodup) :
    (runMatching im comp cogs excl).length = im.length := by
  have hkeys : ((applyT2Fallback
      (matchOpp (prepIm im cogs) (applyExclusions (comp.map prepComp) excl))
      (matchNonOpp (prepIm im cogs) (applyExclusions (comp.map prepComp) excl))
      (prepIm im cogs)).map mKey).Nodup := by
    rw [applyT2Fallback_map_key, List.map_append]
    have h2 : List.Perm
        ((matchOpp (prepIm im cogs) (applyExclusions (comp.map prepComp) excl)).map mKey ++
          (matchNonOpp (prepIm im cogs) (applyExclusions (comp.map prepComp) excl)).map mKey)
        (((prepIm im cogs).filter (·.is_opp)).map imKey ++
          ((prepIm im cogs).filter fun r => !r.is_opp).map imKey) :=
      (matchOpp_keys_perm _ _).append (by rw [matchNonOpp_map_key])
    have h3 : List.Perm
        (((prepIm im cogs).filter (·.is_opp)).map imKey ++
          ((prepIm im cogs).filter fun r => !r.is_opp).map imKey)
        ((prepIm im cogs).map imKey) := by
      rw [← List.map_append]
      exact (List.filter_append_perm _ _).map imKey
    have h4 : ((prepIm im cogs).map imKey).Nodup := by
      rw [prepIm_map_key Hcogs]; exact Him
    exact ((h2.trans h3).nodup_iff).mpr h4
  unfold runMatching
  rw [length_leftMergeWith, prepIm_length Hcogs]
  intro r _
  apply length_filter_key_le_one (pairwise_ne_of_map_nodup hkeys)
    (x := (r.city, r.item_code))
  intro a ha
  simp only [Bool.and_eq_true, beq_iff_eq] at ha
  exact Prod.ext ha.1 ha.2

theorem mergeStock_length (df : List MatchedRow) (stock : List StockRow) :
    (mergeStock df stock).length = df.length := by
  unfold mergeStock
  split_ifs
  · rw [List.length_map]
  · rw [length_leftMergeWith]
    intro r _
    apply length_filter_key_le_one (pairwise_keys_dedupByKey _ _)
      (x := stockKey r.city r.item_code)
    intro a ha
    exact beq_iff_eq.mp ha

theorem mergeGmv_length (df : List StockedRow) (gmv : List GmvRow)
    (Hgmv : (gmv.map (·.item_code)).Nodup) :
    (mergeGmv df gmv).length = df.length := by
  unfold mergeGmv
  split_ifs
  · rw [List.length_map]
  · rw [length_leftMergeWith]
    intro r _
    apply length_filter_key_le_one (pairwise_ne_of_map_nodup Hgmv) (x := r.item_code)
    intro a ha
    exact beq_iff_eq.mp ha

theorem mergeSdpo_length (df : List WeightedRow) (sdpo : List SdpoRow)
    (Hsdpo : (sdpo.map fun s => cleanStr s.brand).Nodup) :
    (mergeSdpo df sdpo).length = df.length := by
  unfold mergeSdpo
  split_ifs
  · rw [List.length_map]
  · rw [length_leftMergeWith]
    intro r _
    apply length_filter_key_le_one (pairwise_ne_of_map_nodup Hsdpo)
      (x := cleanStr r.brand)
    intro a ha
    exact beq_iff_eq.mp ha

theorem calculateKviTiers_length (df : List SdpoMergedRow) :
    (calculateKviTiers df).length = df.length := by
  unfold calculateKviTiers
  rw [List.length_map, List.enum_length]

/-- C1: the matching-plus-pricing pipeline emits exactly one priced row per
input product row — no record is dropped or duplicated — for every input
(empty competitor, stock, weight and policy tables included), provided each
keyed lookup table is keyed as the data model requires: products by
`(city, item_code)`, COGS by `(item_code, city)`, revenue weights by
`item_code` and brand discounts by brand. -/
theorem c1_completeness (im : List ImRow) (comp : List CompRow) (cogs : List CogsRow)
    (excl : List ExclRow) (stock : List StockRow) (gmv : List GmvRow)
    (sdpo : List SdpoRow) (override : Option ℚ)
    (Him : (im.map fun r => (r.city, r.item_code)).Nodup)
    (Hcogs : (cogs.map fun c => (c.item_code, cleanStr c.city)).Nodup)
    (Hgmv : (gmv.map (·.item_code)).Nodup)
    (Hsdpo : (sdpo.map fun s => cleanStr s.brand).Nodup) :
    (runPipeline im comp cogs excl stock gmv sdpo override).length = im.length := by
  unfold runPipeline runPricing calculateTargetMargins
  simp only [List.length_map]
  rw [calculateKviTiers_length, mergeSdpo_length _ _ Hsdpo, mergeGmv_length _ _ Hgmv,
    mergeStock_length, runMatching_length im comp cogs excl Him Hcogs]

/-! ## In-place effects on the caller's input tables (claim C10)

The source assigns derived columns to some argument frames in place:
`_apply_exclusions` writes `city_clean`, `brand_clean`, `key` onto the
exclusion frame (lines 162–168); `_prep_data` writes `city_clean` onto the
COGS frame and renames `COGS → COGS_LATEST` with `inplace=True` (lines
255–256); `_merge_stock` writes `key` onto the stock frame (line 437);
`_merge_brand_sdpo` writes `Brand_Clean` and `Fixed_SDPO_Pct` onto the
brand-discount frame (lines 461–462).  The product and competitor frames
are `.copy()`-ed before any assignment (lines 133, 148, 397), the NECC
frame is unused and the GMV frame only read.  To observe this, tables are
modelled generically as lists of rows of named cells, and each engine entry
point is paired with a function returning the caller's tables as they stand
after the call. -/

inductive Cell where
  | s (v : String)
  | q (v : ℚ)
  deriving DecidableEq, Repr

/-- A generic frame row: named cells in column order. -/
abbrev GRow := List (String × Cell)

abbrev GTable := List GRow

def getCell (r : GRow) (c : String) : Option Cell :=
  (r.find? fun p => p.1 == c).map Prod.snd

def getStr (r : GRow) (c : String) : String :=
  match getCell r c with
  | some (.s v) => v
  | _ => ""

/-- pandas column assignment: overwrite in place when the column exists,
else append it as the last column. -/
def setCellRow (r : GRow) (c : String) (v : Cell) : GRow :=
  if r.any fun p => p.1 == c then
    r.map fun p => if p.1 == c then (c, v) else p
  else r ++ [(c, v)]

def setCol (t : GTable) (c : String) (f : GRow → Cell) : GTable :=
  t.map fun r => setCellRow r c (f r)

/-- `'col' in df.columns` for a non-empty frame (an empty frame is modelled
as having no columns). -/
def hasCol (t : GTable) (c : String) : Bool :=
  match t with
  | [] => false
  | r :: _ => r.any fun p => p.1 == c

def cellClean (r : GRow) (c : String) : Cell := .s (cleanStr (getStr r c))

/-- The caller's exclusion table after `_apply_exclusions` (lines 162–168):
`city_clean` and `brand_clean` (from the `CITY`/`BRAND` columns when
present, else the scalar `''` broadcast), then the concatenated `key`. -/
def exclAfterApply (excl : GTable) : GTable :=
  let e1 := if hasCol excl "CITY" then setCol excl "city_clean" (fun r => cellClean r "CITY")
    else setCol excl "city_clean" fun _ => .s ""
  let e2 := if hasCol e1 "BRAND" then setCol e1 "brand_clean" (fun r => cellClean r "BRAND")
    else setCol e1 "brand_clean" fun _ => .s ""
  setCol e2 "key" fun r => .s (getStr r "city_clean" ++ "_" ++ getStr r "brand_clean")

/-- The caller's COGS table after `_prep_data` (lines 254–256): when a
`CITY` column exists, `city_clean` is assigned and `COGS` is renamed
`COGS_LATEST` in place. -/
def cogsAfterPrep (cogs : GTable) : GTable :=
  if hasCol cogs "CITY" then
    (setCol cogs "city_clean" fun r => cellClean r "CITY").map fun r =>
      r.map fun p => if p.1 == "COGS" then ("COGS_LATEST", p.2) else p
  else cogs

/-- `str(int(float(item)))` of `clean_key` (lines 430–431): truncate a
numeric cell toward zero; a non-numeric string cell falls to the `except`
branch's `'0'` (fractional text values are outside the modelled fragment). -/
def cellItemStr (c : Cell) : String :=
  match c with
  | .q v => toString (v.num.tdiv (v.den : ℤ))
  | .s v =>
    if isDigitStr (trimChars v.data) then toString (readNat (trimChars v.data)) else "0"

/-- The caller's stock table after `_merge_stock` (lines 423–438): a `key`
column is assigned in place when the table is non-empty and has the
`CITY`/`ITEM_CODE` columns. -/
def stockAfterMerge (stock : GTable) : GTable :=
  if stock.length = 0 then stock
  else if hasCol stock "CITY" && hasCol stock "ITEM_CODE" then
    setCol stock "key" fun r =>
      .s (cleanStr (getStr r "CITY") ++ "_" ++ cellItemStr ((getCell r "ITEM_CODE").getD (.s "")))
  else stock

def stripPctChars (s : String) : String := ⟨s.data.filter fun c => !(c = '%')⟩

/-- `float(str(x).replace('%',''))` of line 463 on the modelled cells
(numeric cells, or integral digit strings with `%` signs; other text would
raise in the source). -/
def cellPctVal (c : Cell) : ℚ :=
  match c with
  | .q v => v
  | .s v =>
    if isDigitStr (trimChars (stripPctChars v).data) then
      (readNat (trimChars (stripPctChars v).data) : ℚ)
    else 0

/-- The caller's brand-discount table after `_merge_brand_sdpo` (lines
455–471): `Brand_Clean` and `Fixed_SDPO_Pct` are assigned in place when the
table is non-empty and has the `Brand`/`Hardcoded_SDPO` columns. -/
def sdpoAfterMerge (sdpo : GTable) : GTable :=
  if sdpo.length = 0 then sdpo
  else if hasCol sdpo "Brand" && hasCol sdpo "Hardcoded_SDPO" then
    let s1 := setCol sdpo "Brand_Clean" fun r => .s (cleanStr (getStr r "Brand"))
    setCol s1 "Fixed_SDPO_Pct" fun r =>
      .q (cellPctVal ((getCell r "Hardcoded_SDPO").getD (.s "")) / 100)
  else sdpo

structure MatchInputsAfter where
  im : GTable
  comp : GTable
  necc : GTable
  cogs : GTable
  excl : GTable
  deriving DecidableEq, Repr

/-- The caller-supplied tables as they stand after
`MatchingEngine.run_matching` returns: the product frame is copied in
`_normalize_im` (line 133) and the competitor frame in `_normalize_comp`
(line 148) before any column assignment, the NECC frame is never touched,
the exclusion frame is mutated only when non-empty (guard at line 111), and
the COGS frame is mutated by `_prep_data`. -/
def runMatchingInputsAfter (im comp necc cogs excl : GTable) : MatchInputsAfter :=
  { im := im, comp := comp, necc := necc,
    cogs := cogsAfterPrep cogs,
    excl := if 0 < excl.length then exclAfterApply excl else excl }

structure PricingInputsAfter where
  matched : GTable
  stock : GTable
  gmv : GTable
  sdpo : GTable
  deriving DecidableEq, Repr

/-- The caller-supplied tables as they stand after
`PricingEngine.run_pricing` returns: the matched frame is copied (line
397), the stock and brand-discount frames gain columns in place, the GMV
frame is only read. -/
def runPricingInputsAfter (matched stock gmv sdpo : GTable) : PricingInputsAfter :=
  { matched := matched, stock := stockAfterMerge stock, gmv := gmv,
    sdpo := sdpoAfterMerge sdpo }

/-- C10 (amended): after the engine runs, the product, competitor, NECC,
matched and revenue-weight tables handed in by the caller are unchanged —
they are copied before any column assignment or only read.  The exclusion,
COGS, stock and brand-discount tables are NOT unchanged in general: they
gain derived key/normalization columns in place (and the COGS column is
renamed) — see the counterexample. -/
theorem c10_unmutated_inputs (im comp necc cogs excl matched stock gmv sdpo : GTable) :
    (runMatchingInputsAfter im comp necc cogs excl).im = im ∧
      (runMatchingInputsAfter im comp necc cogs excl).comp = comp ∧
      (runMatchingInputsAfter im comp necc cogs excl).necc = necc ∧
      (runPricingInputsAfter matched stock gmv sdpo).matched = matched ∧
      (runPricingInputsAfter matched stock gmv sdpo).gmv = gmv :=
  ⟨rfl, rfl, rfl, rfl, rfl⟩

/-! ## Concrete runs: counterexamples and witness instantiations

The rational arithmetic of Batteries is `@[irreducible]`; within this
section it is made reducible so that `decide` can evaluate the engine on
concrete tables (the kernel itself ignores reducibility attributes). -/

section ConcreteRuns

set_option allowUnsafeReducibility true
attribute [local reducible] Rat.add Rat.sub Rat.mul Rat.inv

/-- C2 counterexample: a product priced by the pipeline with cost 8 but a
brand-discount-lowered ceiling `⌊10 − 5⌋ = 5`; the ceiling is applied after
the cost floor, so the final price is 5 < 8 although `cost > 0`. -/
theorem c2_counterexample :
    ((runPipeline [⟨1, "delhi", "x", "1", "b", 10, .amt 5⟩] [] [⟨1, "delhi", 8⟩]
        [] [] [] [] none).map fun r => (r.final_price, r.cogs))
      = [(5, 8)] ∧ ¬ ((8 : ℚ) ≤ 5) := by decide

def c2SampleTarget : TargetRow :=
  ⟨⟨⟨⟨⟨⟨⟨1, "delhi", "x", "1", "b", 10, .empty, "1_pieces", "delhi", "1_pieces", 1, "T1",
    "delhi", 10, "White", "b", false, 8⟩, 0, "", "", ""⟩, "NA"⟩, 0⟩, 0⟩, "Other", "Tier 3"⟩, 3/20⟩

theorem c2_final_price_ge_cost_witness :
    (calcPricesRow c2SampleTarget).cogs
      ≤ (applyConstraintsRow (calcPricesRow c2SampleTarget)).final_price :=
  c2_final_price_ge_cost (calcPricesRow c2SampleTarget) (by decide) (by decide)
    (Or.inr (by decide))

theorem c3_spacing_rule_witness :
    spaced id [10, 102/10, 106/10, 12] = specSpaced [10, 102/10, 106/10, 12] :=
  c3_spacing_rule.1 [10, 102/10, 106/10, 12] (by decide)

def c4SampleTarget : TargetRow :=
  ⟨⟨⟨⟨⟨⟨⟨1, "delhi", "x", "1", "b", 10, .empty, "1_pieces", "delhi", "1_pieces", 1, "T1",
    "delhi", 10, "White", "b", false, 8⟩, 0, "", "", ""⟩, "NA"⟩, 0⟩, 1/10⟩, "Other", "Tier 3"⟩, 3/20⟩

theorem c4_brand_rule_witness :
    (calcPricesRow c4SampleTarget).model_price
        = c4SampleTarget.mrp * (1 - c4SampleTarget.fixed_sdpo_pct)
          - bdpoVal c4SampleTarget.mrp c4SampleTarget.bdpo ∧
      (applyConstraintsRow (calcPricesRow c4SampleTarget)).constrained_price
        = max (calcPricesRow c4SampleTarget).model_price
            (floorValOf (calcPricesRow c4SampleTarget)) :=
  c4_brand_rule_overrides_and_skips_ceiling c4SampleTarget (by decide)

/-- The tiering-stage frame of a two-product run whose revenue weights are
given in ascending order (1 then 9), used to refute C5's sorted-order
reading. -/
def c5Frame : List SdpoMergedRow :=
  mergeSdpo (mergeGmv (mergeStock (runMatching
    [⟨5, "delhi", "a", "1", "b", 10, .empty⟩, ⟨6, "delhi", "c", "1", "b", 10, .empty⟩]
    [] [⟨5, "delhi", 3⟩, ⟨6, "delhi", 3⟩] []) []) [⟨5, 1⟩, ⟨6, 9⟩]) []

/-- C5 counterexample: the code assigns `Tier 1` to the weight-1 product
(first row, cumulative share 0.1 in the given order) and `Tier 3` to the
weight-9 product (cumulative share 1.0), while the spec's
descending-weight ordering would give `Tier 3` and `Tier 2` — the claim's
sorted-order reading is false on the code. -/
theorem c5_counterexample :
    (calculateKviTiers c5Frame).map (·.kvi_tier) = ["Tier 1", "Tier 3"] ∧
      c5Frame.map (specTierOf c5Frame) = ["Tier 3", "Tier 2"] ∧
      ¬ ((calculateKviTiers c5Frame).map (·.kvi_tier)
          = c5Frame.map (specTierOf c5Frame)) := by decide

def c5SampleRow : SdpoMergedRow :=
  ⟨⟨⟨⟨⟨1, "delhi", "x", "1", "b", 10, .empty, "1_pieces", "delhi", "1_pieces", 1, "T1",
    "delhi", 10, "White", "b", false, 8⟩, 0, "", "", ""⟩, "NA"⟩, 5⟩, 0⟩

theorem c5_tiers_witness :
    ((calculateKviTiers [c5SampleRow]).map (·.kvi_tier))[0]? = some "Tier 3" := by
  have h := c5_tiers_accumulate_in_given_order [c5SampleRow] 0 c5SampleRow (by decide)
  rw [h]
  decide

/-- The target-margin-stage frame of a run with a Tier-1 product in a T1
city whose stock is insufficient, used to refute C6's plain
"not stock-insufficient" condition. -/
def c6Frame : List TargetRow :=
  calculateTargetMargins (calculateKviTiers (mergeSdpo (mergeGmv (mergeStock
    (runMatching
      [⟨2, "delhi", "x6", "6 pcs", "alpha", 100, .empty⟩,
       ⟨3, "delhi", "y4", "4 pcs", "alpha", 100, .empty⟩]
      [⟨"delhi", "alpha", "z6", "6 pcs", 80, 100, "s"⟩]
      [⟨2, "delhi", 50⟩, ⟨3, "delhi", 50⟩] [])
    [⟨"delhi", 2, "Insufficient"⟩]) [⟨2, 4⟩, ⟨3, 1⟩]) [])) none

/-- C6 counterexample: the first frame row is stock-insufficient, yet the
cascade still sets its pre-brand price to `comp_price × 0.98 = 78.4`
(distinct from the standard price 80 and the default 67) and records the
undercut action — the undercut does not apply "exactly" under a plain
"not stock-insufficient" condition; the code requires T2 as well. -/
theorem c6_counterexample :
    (c6Frame.map fun r => (lowerStr r.stock_status, (calcPricesRow r).pre_brand_price,
        (calcPricesRow r).stock_action, priceCompOf r, priceMinMarginOf r)).head?
      = some ("insufficient", 392/5, "KVI T1 Aggression: Beat Comp by 2%", 80, 67) ∧
      (392/5 : ℚ) ≠ 80 ∧ (392/5 : ℚ) ≠ 67 := by decide

theorem c6_undercut_witness :
    (calcPricesRow c2SampleTarget).pre_brand_price =
      (if (c2SampleTarget.kvi_tier == "Tier 1") && decide (0 < c2SampleTarget.min_comp_price) &&
          decide (c2SampleTarget.target_nm < nmCompOf c2SampleTarget) &&
          !(c2SampleTarget.city_tier == "T2" &&
            lowerStr c2SampleTarget.stock_status == "insufficient")
       then priceCompOf c2SampleTarget * (98/100)
       else if decide (c2SampleTarget.target_nm ≤ nmCompOf c2SampleTarget) &&
          !(c2SampleTarget.city_tier == "T2" &&
            lowerStr c2SampleTarget.stock_status == "insufficient")
       then priceCompOf c2SampleTarget
       else priceMinMarginOf c2SampleTarget) :=
  c6_undercut_exactly_under_conditions c2SampleTarget

def c7SampleTarget : TargetRow :=
  ⟨⟨⟨⟨⟨⟨⟨1, "delhi", "x", "1", "b", 7/2, .empty, "1_pieces", "delhi", "1_pieces", 1, "T1",
    "delhi", 4, "White", "b", false, 0⟩, 0, "", "", ""⟩, "NA"⟩, 0⟩, 0⟩, "Other", "Tier 3"⟩, 3/20⟩

theorem c7_missing_cost_witness :
    ((applyConstraintsRow (calcPricesRow c7SampleTarget)).final_price = max (7/2) 1 ∧
        (applyConstraintsRow (calcPricesRow c7SampleTarget)).final_action
          = "Fallback: Missing COGS -> MRP") ∧
      1 ≤ (applyConstraintsRow (calcPricesRow c7SampleTarget)).final_price :=
  ⟨(c7_missing_cost_fallback (calcPricesRow c7SampleTarget)).1 (by decide),
   (c7_missing_cost_fallback (calcPricesRow c7SampleTarget)).2⟩

theorem c8_normalizer_witness :
    normalize "1 pack (6 pcs)" "Brand Eggs 12 Pieces" = "6_pieces" :=
  c8_normalizer_cases.1 "Brand Eggs 12 Pieces"

/-- C9 counterexample: a competitor observation with selling price −5
matches a branded product via the exact attribute join, and the matching
output carries the negative matched price through. -/
theorem c9_counterexample :
    (runMatching [⟨4, "delhi", "n", "1", "beta", 10, .empty⟩]
        [⟨"delhi", "beta", "n", "1", -5, 10, "s"⟩] [⟨4, "delhi", 3⟩] []).map
      (fun r => (r.min_comp_price, r.match_comment))
      = [(-5, "Non-OPP Match: Exact UOM String")] ∧ ¬ ((0 : ℚ) ≤ -5) := by decide

theorem c9_matched_price_witness :
    0 ≤ ((runMatching [⟨4, "delhi", "n", "1", "beta", 10, .empty⟩]
        [⟨"delhi", "beta", "n", "1", 5, 10, "s"⟩] [⟨4, "delhi", 3⟩] []).headI).min_comp_price :=
  c9_matched_price_nonneg [⟨4, "delhi", "n", "1", "beta", 10, .empty⟩]
    [⟨"delhi", "beta", "n", "1", 5, 10, "s"⟩] [⟨4, "delhi", 3⟩] [] (by decide)
    _ (by decide)

theorem c1_completeness_witness :
    (runPipeline [⟨1, "delhi", "x", "1", "b", 10, .empty⟩, ⟨2, "mysore", "y", "2", "b", 10, .empty⟩]
        [⟨"delhi", "b", "n", "1", 5, 10, "s"⟩] [⟨1, "delhi", 3⟩] [] [] [⟨1, 2⟩] [] none).length
      = 2 :=
  c1_completeness _ _ _ _ _ _ _ _ (by decide) (by decide) (by decide) (by decide)

/-- C10 counterexample: an exclusion table and a COGS table passed to the
matching engine come back with derived columns assigned in place (and the
COGS column renamed) — the inputs are not all unchanged. -/
theorem c10_counterexample :
    (runMatchingInputsAfter [] [] [] [[("ITEM_CODE", .q 1), ("CITY", .s "Delhi"), ("COGS", .q 8)]]
        [[("CITY", .s "Delhi"), ("BRAND", .s "X")]]).excl
      = [[("CITY", .s "Delhi"), ("BRAND", .s "X"), ("city_clean", .s "delhi"),
          ("brand_clean", .s "x"), ("key", .s "delhi_x")]] ∧
      ¬ ((runMatchingInputsAfter [] [] [] [[("ITEM_CODE", .q 1), ("CITY", .s "Delhi"), ("COGS", .q 8)]]
          [[("CITY", .s "Delhi"), ("BRAND", .s "X")]]).excl
        = [[("CITY", .s "Delhi"), ("BRAND", .s "X")]]) ∧
      ¬ ((runMatchingInputsAfter [] [] [] [[("ITEM_CODE", .q 1), ("CITY", .s "Delhi"), ("COGS", .q 8)]]
          [[("CITY", .s "Delhi"), ("BRAND", .s "X")]]).cogs
        = [[("ITEM_CODE", .q 1), ("CITY", .s "Delhi"), ("COGS", .q 8)]]) := by decide

end ConcreteRuns

end Pricing
